import Mathlib

/-!
# Verification of the znkr/diff sequence-comparison engine

This file is a shallow embedding, in Lean 4, of the core of the `znkr.io/diff`
Go module, translated from the repository's source files:

* `internal/config/config.go` — modes, flags, option composition (`FromOptions`);
* `options.go` — the public options `Context`, `Optimal`, `Fast`;
* `internal/impl/api.go` — the top-level driver `Diff`: change-bound stripping,
  trivial cases, the `preprocess` ID-assignment pass, `diffMinimal`,
  `diffDefault`, `diffFast`, and `segments` (Szymanski anchor LCS);
* `internal/impl/myers.go` — the bidirectional middle-snake engine
  (`myers.split`, `myers.compare`) with the GOOD_DIAGONAL and TOO_EXPENSIVE
  heuristics.  The integer specialization `myersInt` used by the driver is
  declared in `internal/impl/api.go` but its file is not part of the snapshot;
  per the specification (§4.3) it is the generic engine of
  `internal/impl/myers.go` with `eq` instantiated to `==`, which is how it is
  embedded here (the engine is defined over an arbitrary `DecidableEq` type
  and instantiated at `Nat` IDs by the driver);
* `rvecs.go` (the result-vector hunk grouper `rvecs.Hunks`);
* `diff.go` — `Edits`, `Hunks` and the walks that turn result vectors into
  user-facing edits;
* `internal/indentheuristic/indentheuristic.go` — the indent heuristic.

Machine integers are embedded as `Int` (Go `int` arithmetic in this code never
overflows 64 bits for inputs of list length; the sentinels `math.MinInt` /
`math.MaxInt` are embedded as the exact values `-2^63` / `2^63 - 1`).  Go
slices read at a computed index are embedded as total functions whose reads we
prove are in bounds wherever the Go code's are; loops without a structural
bound are given fuel, and a Go `panic` (or fuel exhaustion, which we prove
does not occur on the paths the theorems cover) is embedded as `none`.

The v-arrays of the Myers engine are embedded by layer: the Go code keeps one
array indexed by diagonal whose entries alternate between iteration `d-1` and
iteration `d` values (entries of diagonal parity equal to the current
iteration's are rewritten each iteration, the others are read).  Because the
forward k-loop reads only entries of the opposite parity (indices `k ± 1`),
the iteration-`d` entries are a pointwise function of the iteration-`d-1`
entries, which is how they are computed here; sentinel writes at the widening
band edges are applied to the previous layer before it is read, exactly where
the Go code writes them.
-/

namespace ZnkrDiff

/-! ## internal/config/config.go -/

/-- `config.Mode` from internal/config/config.go. -/
inductive Mode where
  | default
  | minimal
  | fast
deriving DecidableEq, Repr

/-- `config.Config` from internal/config/config.go. -/
structure Config where
  context : Int
  mode : Mode
  indentHeuristic : Bool
  forceAnchoringHeuristic : Bool
deriving DecidableEq, Repr

/-- `config.Default` from internal/config/config.go. -/
def Config.defaultCfg : Config :=
  { context := 3, mode := Mode.default, indentHeuristic := false,
    forceAnchoringHeuristic := false }

/-- `config.Flag`, a bitmask: `Context = 1`, `Optimal = 2`, `Fast = 4`,
`IndentHeuristic = 8` (config.go declares the flags with `1 << iota`; the
middle flag is called `Minimal` in internal/config/config.go and `Optimal`
in the version of options.go shipped in the snapshot — same bit either way). -/
abbrev Flag := Nat

def Flag.contextF : Flag := 1
def Flag.optimalF : Flag := 2
def Flag.fastF : Flag := 4
def Flag.indentF : Flag := 8

/-- A `config.Option` is a function updating the config and returning its
flag.  The options actually defined by the library are a closed collection
(options.go and options_experimental.go), embedded as data. -/
inductive GoOption where
  /-- `diff.Context(n)` — options.go: sets `cfg.Context = max(0, n)`. -/
  | context (n : Int)
  /-- `diff.Optimal()` — options.go: sets the minimal-cost mode. -/
  | optimal
  /-- `diff.Fast()` — options.go: sets fast mode. -/
  | fast
  /-- `textdiff.IndentHeuristic()`. -/
  | indentHeuristic
  /-- `diff.AnchoringHeuristic()` — options_experimental.go: sets
  `cfg.ForceAnchoringHeuristic` (its flag bit, 16, is never in `allowed`
  sets used by the public entry points of diff.go). -/
  | anchoring
deriving DecidableEq, Repr

/-- Applying one option to a config: the body of the closure each option
constructor returns, yielding the updated config and the option's flag. -/
def applyOption (cfg : Config) : GoOption → Config × Flag
  | GoOption.context n => ({ cfg with context := max 0 n }, Flag.contextF)
  | GoOption.optimal => ({ cfg with mode := Mode.minimal }, Flag.optimalF)
  | GoOption.fast => ({ cfg with mode := Mode.fast }, Flag.fastF)
  | GoOption.indentHeuristic => ({ cfg with indentHeuristic := true }, Flag.indentF)
  | GoOption.anchoring => ({ cfg with forceAnchoringHeuristic := true }, (16 : Nat))

/-- The option-processing loop of `config.FromOptions`. -/
def fromOptionsGo (allowed : Flag) : Config → List GoOption → Except String Config
  | cfg, [] =>
    if cfg.mode ≠ Mode.default ∧ cfg.forceAnchoringHeuristic then
      Except.error "ForceAnchoringHeuristic may only be set for ModeDefault"
    else
      Except.ok cfg
  | cfg, o :: rest =>
    let p := applyOption cfg o
    -- Go: `flag & ^allowed != 0`; `^allowed` is 64-bit complement and all
    -- flags are below 2^63, so it is `(2^64 - 1) - allowed` exactly.
    if p.2 &&& (2 ^ 64 - 1 - allowed) ≠ 0 then
      Except.error "Option not allowed here"
    else
      fromOptionsGo allowed p.1 rest

/-- `config.FromOptions` from internal/config/config.go.  A Go `panic`
(an option whose flag is not in `allowed`, or `ForceAnchoringHeuristic`
combined with a non-default mode) is embedded as `Except.error`.

Faithfulness note: the Go loop applies every option and panics at the first
whose flag has a bit outside `allowed`; the final mode/force check runs after
the loop.  `fromOptionsGo` is exactly that loop. -/
def FromOptions (opts : List GoOption) (allowed : Flag) : Except String Config :=
  fromOptionsGo allowed Config.defaultCfg opts

/-! ## rvecs: result vectors and the hunk grouper (rvecs.go) -/

/-- `rvecs.Hunk`. -/
structure RHunk where
  s0 : Int
  s1 : Int
  t0 : Int
  t1 : Int
  edits : Int
deriving DecidableEq, Repr

/-- The inner `for s < n && rx[s]` delete-consuming loop of `rvecs.Hunks`. -/
def rvecsDels (rx : List Bool) (n : Int) : Nat → Int → Int → Int × Int
  | 0, s, d => (s, d)
  | fl + 1, s, d =>
    if s < n ∧ rx.getD s.toNat false then rvecsDels rx n fl (s + 1) (d + 1) else (s, d)

/-- The inner `for t < m && ry[t]` insert-consuming loop of `rvecs.Hunks`. -/
def rvecsInss (ry : List Bool) (m : Int) : Nat → Int → Int → Int × Int
  | 0, t, d => (t, d)
  | fl + 1, t, d =>
    if t < m ∧ ry.getD t.toNat false then rvecsInss ry m fl (t + 1) (d + 1) else (t, d)

/-- The inner match-consuming loop of `rvecs.Hunks`. -/
def rvecsMats (rx ry : List Bool) (n m : Int) :
    Nat → Int → Int → Int → Int → Int × Int × Int × Int
  | 0, s, t, run, d => (s, t, run, d)
  | fl + 1, s, t, run, d =>
    if s < n ∧ t < m ∧ ¬ rx.getD s.toNat false ∧ ¬ ry.getD t.toNat false then
      rvecsMats rx ry n m fl (s + 1) (t + 1) (run + 1) (d + 1)
    else (s, t, run, d)

/-- One outer-loop pass of `rvecs.Hunks` (the Go `for s < n || t < m` loop),
embedded with fuel.  State: cursors `s t`, open-hunk start `s0 t0` (`-1` when
closed), edit count `d`, match run `run`, accumulated hunks. -/
def rvecsHunksLoop (rx ry : List Bool) (context : Int) : Nat →
    Int → Int → Int → Int → Int → Int → List RHunk → Option (List RHunk)
  | 0, _, _, _, _, _, _, _ => none
  | fuel + 1, s, t, s0, t0, d, run, acc =>
    let n : Int := (rx.length : Int) - 1
    let m : Int := (ry.length : Int) - 1
    if s < n ∨ t < m then
      if rx.getD s.toNat false ∨ ry.getD t.toNat false then
        -- edit branch: `run = 0`, possibly open a hunk, consume deletes then inserts
        let os := if s0 < 0 then max 0 (s - context) else s0
        let ot := if s0 < 0 then max 0 (t - context) else t0
        let od := if s0 < 0 then s - os else d
        let p1 := rvecsDels rx n rx.length s od
        let p2 := rvecsInss ry m ry.length t p1.2
        if (0 : Int) > 2 * context ∨ (p1.1 = n ∧ p2.1 = m) then
          let Δ := min 0 (-(0 : Int) + context)
          rvecsHunksLoop rx ry context fuel p1.1 p2.1 (-1) (-1) p2.2 0
            (acc ++ [⟨os, p1.1 + Δ, ot, p2.1 + Δ, p2.2 + Δ⟩])
        else
          rvecsHunksLoop rx ry context fuel p1.1 p2.1 os ot p2.2 0 acc
      else
        -- match branch
        let q := rvecsMats rx ry n m (rx.length + ry.length) s t run d
        if s0 ≥ 0 ∧ (q.2.2.1 > 2 * context ∨ (q.1 = n ∧ q.2.1 = m)) then
          let Δ := min 0 (-q.2.2.1 + context)
          rvecsHunksLoop rx ry context fuel q.1 q.2.1 (-1) (-1) q.2.2.2 q.2.2.1
            (acc ++ [⟨s0, q.1 + Δ, t0, q.2.1 + Δ, q.2.2.2 + Δ⟩])
        else
          rvecsHunksLoop rx ry context fuel q.1 q.2.1 s0 t0 q.2.2.2 q.2.2.1 acc
    else
      some acc

/-- `rvecs.Hunks(rx, ry, cfg)` as the list of hunks the iterator yields
(rvecs.go).  Returns `none` if the cursor walk fails to terminate within
fuel (the Go iterator would spin forever), which cannot happen for result
vectors produced by the engine. -/
def rvecsHunks (rx ry : List Bool) (context : Int) : Option (List RHunk) :=
  rvecsHunksLoop rx ry context (2 * (rx.length + ry.length) + 4) 0 0 (-1) (-1) 0 0 []

/-! ## The Myers middle-snake engine (internal/impl/myers.go)

The engine is generic over the element type with decidable equality, exactly
like `myers[T]` in internal/impl/myers.go with `eq` a decidable equality; the
driver instantiates it at `Nat` IDs, which is the integer specialization
`myersInt` (declared in internal/impl/api.go; its defining file is missing
from the snapshot and per spec §4.3 it is this same algorithm with pure `==`).
-/

/-- `math.MinInt`. -/
def intMin : Int := -(2 ^ 63)

/-- `math.MaxInt`. -/
def intMax : Int := 2 ^ 63 - 1

/-- `minCostLimit` (myers.go). -/
def minCostLimit : Int := 4096

/-- `goodDiagMinLen` (myers.go). -/
def goodDiagMinLen : Int := 20

/-- `goodDiagCostLimit` (myers.go). -/
def goodDiagCostLimit : Int := 256

/-- `goodDiagMagic` (myers.go). -/
def goodDiagMagic : Int := 4

/-- `anchoringHeuristicMinInputLen` (myers.go). -/
def anchoringHeuristicMinInputLen : Int := 5000

variable {α : Type} [DecidableEq α]

/-- `x[s] == y[t]` for `Int` coordinates; false out of bounds (all reads the
Go code performs are in bounds, so this totalization is exact there). -/
def matchAt (x y : List α) (s t : Int) : Bool :=
  if 0 ≤ s ∧ 0 ≤ t then
    match x[s.toNat]?, y[t.toNat]? with
    | some a, some b => decide (a = b)
    | _, _ => false
  else false

/-- The forward snake loop `for s < smax && t < tmax && eq(x[s], y[t])`,
with fuel; returns the final `s` (then `t = s - k` is recovered from it). -/
def fwdExtGo (x y : List α) (smax tmax : Int) : Nat → Int → Int → Int
  | 0, s, _ => s
  | fl + 1, s, t =>
    if s < smax ∧ t < tmax ∧ matchAt x y s t then fwdExtGo x y smax tmax fl (s + 1) (t + 1)
    else s

/-- Forward snake end from `(s, t)`. -/
def fwdExt (x y : List α) (smax tmax s t : Int) : Int :=
  fwdExtGo x y smax tmax (smax - s).toNat s t

/-- The backward snake loop `for s > smin && t > tmin && eq(x[s-1], y[t-1])`. -/
def bwdExtGo (x y : List α) (smin tmin : Int) : Nat → Int → Int → Int
  | 0, s, _ => s
  | fl + 1, s, t =>
    if s > smin ∧ t > tmin ∧ matchAt x y (s - 1) (t - 1) then
      bwdExtGo x y smin tmin fl (s - 1) (t - 1)
    else s

/-- Backward snake end from `(s, t)`. -/
def bwdExt (x y : List α) (smin tmin s t : Int) : Int :=
  bwdExtGo x y smin tmin (s - smin).toNat s t

/-- The forward predecessor choice (myers.go, forward k-loop): case 2 when
`vf[k0-1] < vf[k0+1]`, else case 1. -/
def fwdStep (prevF : Int → Int) (k : Int) : Int :=
  if prevF (k - 1) < prevF (k + 1) then prevF (k + 1) else prevF (k - 1) + 1

/-- The backward predecessor choice. -/
def bwdStep (prevB : Int → Int) (k : Int) : Int :=
  if prevB (k - 1) < prevB (k + 1) then prevB (k - 1) else prevB (k + 1) - 1

/-- The freshly computed forward layer: predecessor choice then snake. -/
def fwdVal (x y : List α) (smax tmax : Int) (prevF : Int → Int) (k : Int) : Int :=
  fwdExt x y smax tmax (fwdStep prevF k) (fwdStep prevF k - k)

/-- The freshly computed backward layer. -/
def bwdVal (x y : List α) (smin tmin : Int) (prevB : Int → Int) (k : Int) : Int :=
  bwdExt x y smin tmin (bwdStep prevB k) (bwdStep prevB k - k)

/-- First diagonal `lo, lo+2, …` (a fixed number of them) satisfying `p`:
the early-return scan of the k-loops. -/
def scan2 (p : Int → Bool) : Nat → Int → Option Int
  | 0, _ => none
  | n + 1, lo => if p lo then some lo else scan2 p n (lo + 2)

/-- Maximum of `f` over diagonals `lo, lo+2, …` (`longestDiag` tracking). -/
def maxDiag2 (f : Int → Int) : Nat → Int → Int → Int
  | 0, _, acc => acc
  | n + 1, lo, acc => maxDiag2 f n (lo + 2) (max acc (f lo))

/-- Result of `split`: `(s0, s1, t0, t1, opt0, opt1)`. -/
structure SplitRes where
  s0 : Int
  s1 : Int
  t0 : Int
  t1 : Int
  opt0 : Bool
  opt1 : Bool
deriving DecidableEq, Repr

/-- The `best` record of the GOOD_DIAGONAL heuristic (zero initialized). -/
structure GDBest where
  v : Int := 0
  s0 : Int := 0
  s1 : Int := 0
  t0 : Int := 0
  t1 : Int := 0
  opt0 : Bool := false
  opt1 : Bool := false
deriving DecidableEq, Repr

/-- Replayed forward pre-point: the `pk/ps/pt` reconstruction used by both
heuristics (identical decision to the forward k-loop, on the same layer). -/
def fwdPre (prevF : Int → Int) (k : Int) : Int × Int :=
  let pk := if prevF (k - 1) < prevF (k + 1) then k + 1 else k - 1
  (prevF pk, pk)

/-- Replayed backward pre-point. -/
def bwdPre (prevB : Int → Int) (k : Int) : Int × Int :=
  let pk := if prevB (k - 1) < prevB (k + 1) then k - 1 else k + 1
  (prevB pk, pk)

/-- Forward leg of the GOOD_DIAGONAL scan (myers.go lines 301–336).  Note the
`diag < goodDiagMinLen` guard on recording a forward candidate — this is what
the snapshot's code does (the backward leg uses `diag >= goodDiagMinLen`). -/
def gdFwdFold (x y : List α) (smin smax tmin tmax fmid d : Int)
    (curF prevF : Int → Int) : Nat → Int → GDBest → GDBest
  | 0, _, best => best
  | n + 1, k, best =>
    let s := curF k
    let t := s - k
    let v := (s - smin) + (t - tmin) - max (fmid - d) (d - fmid)
    let best' :=
      if s < smin ∨ smax ≤ s ∨ t < tmin ∨ tmax ≤ t then best
      else if v ≤ goodDiagMagic * d ∨ v < best.v then best
      else
        let p := fwdPre prevF k
        let ps := p.1
        let pt := ps - p.2
        let diag := min (s - ps) (t - pt)
        if diag < goodDiagMinLen then
          { v := v, s0 := s - diag, s1 := s, t0 := t - diag, t1 := t,
            opt0 := true, opt1 := false }
        else best
    gdFwdFold x y smin smax tmin tmax fmid d curF prevF n (k + 2) best'

/-- Backward leg of the GOOD_DIAGONAL scan (myers.go lines 337–368). -/
def gdBwdFold (x y : List α) (smin smax tmin tmax bmid d : Int)
    (curB prevB : Int → Int) : Nat → Int → GDBest → GDBest
  | 0, _, best => best
  | n + 1, k, best =>
    let s := curB k
    let t := s - k
    let best' :=
      if s < smin ∨ smax ≤ s ∨ t < tmin ∨ tmax ≤ t then best
      else
        let v := (smax - s) + (tmax - t) - max (bmid - d) (d - bmid)
        if v ≤ goodDiagMagic * d ∨ v < best.v then best
        else
          let p := bwdPre prevB k
          let ps := p.1
          let pt := ps - p.2
          let diag := min (ps - s) (pt - t)
          if diag ≥ goodDiagMinLen then
            { v := v, s0 := s, s1 := s + diag, t0 := t, t1 := t + diag,
              opt0 := false, opt1 := true }
          else best
    gdBwdFold x y smin smax tmin tmax bmid d curB prevB n (k + 2) best'

/-- Forward leg of the TOO_EXPENSIVE scan: furthest-reaching forward endpoint
maximizing `s + t` (in-window only), as `(fbest, fbestk)`. -/
def teFwdFold (smin smax tmin tmax : Int) (curF : Int → Int) :
    Nat → Int → Int × Int → Int × Int
  | 0, _, acc => acc
  | n + 1, k, acc =>
    let s := curF k
    let t := s - k
    let acc' :=
      if smin ≤ s ∧ s < smax ∧ tmin ≤ t ∧ t < tmax ∧ acc.1 < s + t then (s + t, k)
      else acc
    teFwdFold smin smax tmin tmax curF n (k + 2) acc'

/-- Backward leg of the TOO_EXPENSIVE scan: backward endpoint minimizing
`s + t`. -/
def teBwdFold (smin smax tmin tmax : Int) (curB : Int → Int) :
    Nat → Int → Int × Int → Int × Int
  | 0, _, acc => acc
  | n + 1, k, acc =>
    let s := curB k
    let t := s - k
    let acc' :=
      if smin ≤ s ∧ s < smax ∧ tmin ≤ t ∧ t < tmax ∧ s + t < acc.1 then (s + t, k)
      else acc
    teBwdFold smin smax tmin tmax curB n (k + 2) acc'

/-- Number of diagonals `lo, lo+2, …, hi` (the k-loop trip count). -/
def bandCount (lo hi : Int) : Nat := ((hi - lo) / 2 + 1).toNat

/-- One GOOD_DIAGONAL attempt (both legs plus the `best.v > 0` exit). -/
def goodDiagTry (x y : List α) (smin smax tmin tmax fmid bmid d : Int)
    (fmin fmax bmin bmax : Int) (curF prevF curB prevB : Int → Int) :
    Option SplitRes :=
  let best := gdFwdFold x y smin smax tmin tmax fmid d curF prevF
    (bandCount fmin fmax) fmin {}
  let best := gdBwdFold x y smin smax tmin tmax bmid d curB prevB
    (bandCount bmin bmax) bmin best
  if best.v > 0 then
    some ⟨best.s0, best.s1, best.t0, best.t1, best.opt0, best.opt1⟩
  else none

/-- One TOO_EXPENSIVE attempt; `none` both when the heuristic is not taken and
for the `panic("no best path found")` branch (distinguished by the caller via
`teApplies`). -/
def tooExpensiveTry (smin smax tmin tmax : Int)
    (fmin fmax bmin bmax : Int) (curF prevF curB prevB : Int → Int) :
    Option SplitRes :=
  let fb := teFwdFold smin smax tmin tmax curF (bandCount fmin fmax) fmin (intMin, intMin)
  let bb := teBwdFold smin smax tmin tmax curB (bandCount bmin bmax) bmin (intMax, intMax)
  if fb.1 ≠ intMin ∧ (smax + tmax) - bb.1 < fb.1 - (smin + tmin) then
    let k := fb.2
    let s := curF k
    let t := s - k
    let p := fwdPre prevF k
    let ps := p.1
    let pt := ps - p.2
    let diag := min (s - ps) (t - pt)
    some ⟨s - diag, s, t - diag, t, true, false⟩
  else if bb.1 ≠ intMax then
    let k := bb.2
    let s := curB k
    let t := s - k
    let p := bwdPre prevB k
    let ps := p.1
    let pt := ps - p.2
    let diag := min (ps - s) (pt - t)
    some ⟨s, s + diag, t, t + diag, false, true⟩
  else none

/-- The `for d := 1; ; d++` loop of `myers.split`, embedded with fuel.  The
state is the two active bands and the previous layers of the two v-arrays as
total functions on diagonals (see the header comment on the layered v-array
embedding).  `d` is the Go loop variable (already incremented). -/
def splitLoop (x y : List α) (smin smax tmin tmax : Int) (optimal : Bool)
    (costLimit : Int) (kmin kmax fmid bmid : Int) (odd : Bool) :
    Nat → Int → Int → Int → Int → Int → (Int → Int) → (Int → Int) → Option SplitRes
  | 0, _, _, _, _, _, _, _ => none
  | fuel + 1, d, fmin, fmax, bmin, bmax, prevF, prevB =>
    -- forward band update and sentinel writes
    let fmin' := if fmin > kmin then fmin - 1 else fmin + 1
    let prevF1 : Int → Int :=
      if fmin > kmin then fun j => if j = fmin - 2 then intMin else prevF j else prevF
    let fmax' := if fmax < kmax then fmax + 1 else fmax - 1
    let prevF2 : Int → Int :=
      if fmax < kmax then fun j => if j = fmax + 2 then intMin else prevF1 j else prevF1
    let curF := fwdVal x y smax tmax prevF2
    -- forward k-loop with the overlap check
    match scan2 (fun k =>
        odd && decide (bmin ≤ k) && decide (k ≤ bmax) && decide (curF k ≥ prevB k))
        (bandCount fmin' fmax') fmin' with
    | some k =>
      let s := curF k
      let s0 := fwdStep prevF2 k
      some ⟨s0, s, s0 - k, s - k, true, true⟩
    | none =>
      -- backward band update and sentinel writes
      let bmin' := if bmin > kmin then bmin - 1 else bmin + 1
      let prevB1 : Int → Int :=
        if bmin > kmin then fun j => if j = bmin - 2 then intMax else prevB j else prevB
      let bmax' := if bmax < kmax then bmax + 1 else bmax - 1
      let prevB2 : Int → Int :=
        if bmax < kmax then fun j => if j = bmax + 2 then intMax else prevB1 j else prevB1
      let curB := bwdVal x y smin tmin prevB2
      match scan2 (fun k =>
          (! odd) && decide (fmin' ≤ k) && decide (k ≤ fmax') && decide (curB k ≤ curF k))
          (bandCount bmin' bmax') bmin' with
      | some k =>
        let s := curB k
        let s0 := bwdStep prevB2 k
        some ⟨s, s0, s - k, s0 - k, true, true⟩
      | none =>
        if optimal then
          splitLoop x y smin smax tmin tmax optimal costLimit
            kmin kmax fmid bmid odd fuel (d + 1) fmin' fmax' bmin' bmax' curF curB
        else
          let longestDiag := max
            (maxDiag2 (fun k => curF k - fwdStep prevF2 k) (bandCount fmin' fmax') fmin' 0)
            (maxDiag2 (fun k => bwdStep prevB2 k - curB k) (bandCount bmin' bmax') bmin' 0)
          let gd :=
            if longestDiag ≥ goodDiagMinLen ∧ d ≥ goodDiagCostLimit then
              goodDiagTry x y smin smax tmin tmax fmid bmid d
                fmin' fmax' bmin' bmax' curF prevF2 curB prevB2
            else none
          match gd with
          | some r => some r
          | none =>
            if d ≥ costLimit then
              -- TOO_EXPENSIVE always returns or panics; `none` here is the panic
              tooExpensiveTry smin smax tmin tmax
                fmin' fmax' bmin' bmax' curF prevF2 curB prevB2
            else
              splitLoop x y smin smax tmin tmax optimal costLimit
                kmin kmax fmid bmid odd fuel (d + 1) fmin' fmax' bmin' bmax' curF curB

/-- `myers.split` (myers.go).  The layer-0 v-arrays hold only the midpoint
seeds `vf[fmid] = smin`, `vb[bmid] = smax`; all other entries of the Go
arrays are never read before being written (see header).  Fuel covers both
exits: the parity gate fires within `⌈(N+M+1)/2⌉ + 1` iterations, and in
non-optimal mode TOO_EXPENSIVE exits at the first `d ≥ costLimit`. -/
def split (x y : List α) (smin smax tmin tmax : Int) (optimal : Bool)
    (costLimit : Int) : Option SplitRes :=
  let kmin := smin - tmax
  let kmax := smax - tmin
  let fmid := smin - tmin
  let bmid := smax - tmax
  let N := smax - smin
  let M := tmax - tmin
  let odd := (N - M) % 2 ≠ 0
  let prevF0 : Int → Int := fun k => if k = fmid then smin else intMin
  let prevB0 : Int → Int := fun k => if k = bmid then smax else intMax
  splitLoop x y smin smax tmin tmax optimal costLimit kmin kmax fmid bmid odd
    ((N + M).toNat + costLimit.toNat + 4) 1 fmid fmid bmid bmid prevF0 prevB0

/-- Set `l[i] := true` for `i ∈ [lo, hi)` (the base-case mark loops of
`compare`; the index mapping `xidx`/`yidx` is applied by the driver when
assembling the final result vectors, see `assembleMarks`). -/
def markRange (l : List Bool) (lo hi : Int) : List Bool :=
  (List.range l.length).map fun i =>
    if lo ≤ Int.ofNat i ∧ Int.ofNat i < hi then true else l.getD i false

/-- `myers.compare` (myers.go), fuel-bounded recursion.  Marks are collected
in two direct-indexed boolean lists over the engine's own coordinates. -/
def compareGo (x y : List α) (costLimit : Int) :
    Nat → Int → Int → Int → Int → Bool → List Bool × List Bool →
    Option (List Bool × List Bool)
  | 0, _, _, _, _, _, _ => none
  | fuel + 1, smin, smax, tmin, tmax, optimal, (rx, ry) =>
    if smin = smax then
      some (rx, markRange ry tmin tmax)
    else if tmin = tmax then
      some (markRange rx smin smax, ry)
    else
      match split x y smin smax tmin tmax optimal costLimit with
      | none => none
      | some r =>
        match compareGo x y costLimit fuel smin r.s0 tmin r.t0 r.opt0 (rx, ry) with
        | none => none
        | some p => compareGo x y costLimit fuel r.s1 smax r.t1 tmax r.opt1 p

/-- `commonPrefixLen`: the change-bound prefix-stripping loop
(`findChangeBounds` in internal/impl/api.go and `myers.init` in myers.go:
advance while both cursors are in range and the elements are equal). -/
def commonPrefixLen : List α → List α → Nat
  | a :: as_, b :: bs => if a = b then commonPrefixLen as_ bs + 1 else 0
  | _, _ => 0

/-- `findChangeBounds(x, y)`: strip common prefix, then common suffix of the
rest.  Returns `(smin, smax, tmin, tmax)`. -/
def findChangeBounds (x y : List α) : Nat × Nat × Nat × Nat :=
  let p := commonPrefixLen x y
  let q := commonPrefixLen (x.drop p).reverse (y.drop p).reverse
  (p, x.length - q, p, y.length - q)

/-- The `costLimit` computation of `myers.init`:
`costLimit := 1; for i := diagonals; i != 0; i >>= 2 { costLimit <<= 1 }`,
then `max(minCostLimit, costLimit)`.  (Fuel `i` dominates the ⌈log₄⌉ trip
count.) -/
def costLimitGo : Nat → Nat → Nat → Nat
  | 0, _, acc => acc
  | fl + 1, i, acc => if i = 0 then acc else costLimitGo fl (i / 4) (acc * 2)

/-- `m.costLimit` for `diagonals = N + M`. -/
def costLimitOf (diagonals : Nat) : Int :=
  max minCostLimit (costLimitGo (diagonals + 1) diagonals 1)

/-- `myers.init` + `myers.compare` for a full input pair: strips the common
prefix/suffix (init), then runs `compare` on the change window, collecting
direct-indexed marks.  This is the engine entry used by `diffMinimal`,
`diffDefault` (per segment) and `DiffFunc`. -/
def myersRun (x y : List α) (smin smax tmin tmax : Int) (optimal : Bool)
    (rx ry : List Bool) : Option (List Bool × List Bool) :=
  compareGo x y (costLimitOf ((smax - smin).toNat + (tmax - tmin).toNat))
    (x.length + y.length + 2) smin smax tmin tmax optimal (rx, ry)

/-! ## The driver (internal/impl/api.go) -/

/-- Assoc-list lookup standing for the Go map `idx : map[T]int` (insertion
only; `lookupId` is `idx[e]` with presence flag). -/
def lookupId (idx : List (α × Nat)) (e : α) : Option Nat :=
  (idx.find? fun p => decide (p.1 = e)).map (·.2)

/-- One step of the x-walk of `preprocess`: assign (or look up) the dense ID
of `e`, bump its x-occurrence count saturating at 2, append the ID. -/
def ppStep1Go (st : List (α × Nat) × List Nat × List Nat) (e : α) :
    List (α × Nat) × List Nat × List Nat :=
  let idx := st.1
  let counts := st.2.1
  let x0 := st.2.2
  let idOf := lookupId idx e
  let id := idOf.getD idx.length
  let idx' := if idOf.isSome then idx else idx ++ [(e, id)]
  let c := counts.getD id 0
  let counts' := if c < 2 then counts.set id (c + 1) else counts
  (idx', counts', x0 ++ [id])

/-- Step 1 of `preprocess`: walk `x[smin:smax]`, assign dense IDs, count
occurrences in x saturating at 2, produce the raw ID sequence. -/
def ppStep1 (win : List α) : List (α × Nat) × List Nat × List Nat :=
  win.foldl ppStep1Go ([], List.replicate win.length 0, [])

/-- Step 2 of `preprocess`: walk `y[tmin:tmax]`; values absent from `idx` are
immediate insertions (`ry[t] = true`); present values bump the count by 4
saturating at 8 and are kept in `y0`/`yidx`. -/
def ppStep2 (idx : List (α × Nat)) :
    List α → Nat → List Nat × List Nat × List Nat × List Bool →
    List Nat × List Nat × List Nat × List Bool
  | [], _, st => st
  | e :: rest, t, (counts, y0, yidx, ry) =>
    match lookupId idx e with
    | none => ppStep2 idx rest (t + 1) (counts, y0, yidx, ry.set t true)
    | some id =>
      let c := counts.getD id 0
      let counts' := if c < 8 then counts.set id (c + 4) else counts
      ppStep2 idx rest (t + 1) (counts', y0 ++ [id], yidx ++ [t], ry)

/-- Step 3 of `preprocess`: filter from `x0` the IDs that never appear in `y`
(immediate deletions, `rx[j] = true`), record back-indices and count anchors
(final count `1 + 4`). -/
def ppStep3 (counts : List Nat) :
    List Nat → Nat → List Nat × List Nat × Nat × List Bool →
    List Nat × List Nat × Nat × List Bool
  | [], _, st => st
  | e :: rest, j, (x0, xidx, na, rx) =>
    let c := counts.getD e 0
    if c > 4 then
      ppStep3 counts rest (j + 1)
        (x0 ++ [e], xidx ++ [j], if c = 1 + 4 then na + 1 else na, rx)
    else
      ppStep3 counts rest (j + 1) (x0, xidx, na, rx.set j true)

/-- The result of `preprocess`. -/
structure PPRes where
  x0 : List Nat
  y0 : List Nat
  xidx : List Nat
  yidx : List Nat
  counts : List Nat
  nanchors : Nat
  rx : List Bool
  ry : List Bool

/-- `preprocess` (internal/impl/api.go). -/
def preprocess (rx ry : List Bool) (smin smax tmin tmax : Nat) (x y : List α) : PPRes :=
  let xwin := (x.drop smin).take (smax - smin)
  let ywin := (y.drop tmin).take (tmax - tmin)
  let s1 := ppStep1 xwin
  let s2 := ppStep2 s1.1 ywin tmin (s1.2.1, [], [], ry)
  let s3 := ppStep3 s2.1 s1.2.2 smin ([], [], 0, rx)
  { x0 := s3.1, y0 := s2.2.1, xidx := s3.2.1, yidx := s2.2.2.1,
    counts := s2.1, nanchors := s3.2.2.1, rx := s3.2.2.2, ry := s2.2.2.2 }

/-- Go's `sort.Search(n, f)`: binary search for the smallest `i < n` with
`f i` (or `n`). -/
def sortSearchGo (f : Nat → Bool) : Nat → Nat → Nat → Nat
  | 0, i, _ => i
  | fl + 1, i, j =>
    if i < j then
      let h := (i + j) / 2
      if f h then sortSearchGo f fl i h else sortSearchGo f fl (h + 1) j
    else i

/-- The Szymanski Algorithm A loop of `segments`: for each `i`, binary-search
`T` for the first `k` with `T[k] ≥ J[i]`, set `T[k] := J[i]`, `L[i] := k+1`. -/
def szymanskiLoop (n : Nat) : List Nat → List Nat × List Nat → List Nat × List Nat
  | [], st => st
  | ji :: rest, (T, L) =>
    let k := sortSearchGo (fun k => decide (T.getD k 0 ≥ ji)) (n + 1) 0 n
    szymanskiLoop n rest (T.set k ji, L ++ [k + 1])

/-- The reconstruction loop of `segments`, walking `i = n-1 … 0`; `lastj = n`
is never updated by the Go code (and `J[i] < n` always holds). -/
def segReconstruct (xi yi J L : List Nat) (lastj : Nat) :
    Nat → Nat → List (Nat × Nat) → List (Nat × Nat)
  | 0, _, anchors => anchors
  | i + 1, k, anchors =>
    if L.getD i 0 = k ∧ J.getD i 0 < lastj then
      segReconstruct xi yi J L lastj i (k - 1)
        (anchors.set k (xi.getD i 0, yi.getD (J.getD i 0) 0))
    else
      segReconstruct xi yi J L lastj i k anchors

/-- Gather `yi` and the rank map over the y window (`counts[e] == 1+4`
selects anchors). -/
def segYWalk (counts : List Nat) :
    List Nat → Nat → List (Nat × Nat) × List Nat → List (Nat × Nat) × List Nat
  | [], _, st => st
  | e :: rest, t, (idx, yi) =>
    if counts.getD e 0 = 1 + 4 then
      segYWalk counts rest (t + 1) (idx ++ [(e, yi.length)], yi ++ [t])
    else
      segYWalk counts rest (t + 1) (idx, yi)

/-- Gather `xi` and `inv` over the x window. -/
def segXWalk (counts : List Nat) (idx : List (Nat × Nat)) :
    List Nat → Nat → List Nat × List Nat → List Nat × List Nat
  | [], _, st => st
  | e :: rest, s, (xi, inv) =>
    if counts.getD e 0 = 1 + 4 then
      segXWalk counts idx rest (s + 1)
        (xi ++ [s], inv ++ [((idx.find? fun p => decide (p.1 = e)).map (·.2)).getD 0])
    else
      segXWalk counts idx rest (s + 1) (xi, inv)

/-- `segments` (internal/impl/api.go): the anchor LCS with sentinels. -/
def segments (smin smax tmin tmax : Nat) (counts : List Nat) (x y : List Nat) :
    List (Nat × Nat) :=
  let ywalk := segYWalk counts ((y.drop tmin).take (tmax - tmin)) tmin ([], [])
  let xwalk := segXWalk counts ywalk.1 ((x.drop smin).take (smax - smin)) smin ([], [])
  let xi := xwalk.1
  let yi := ywalk.2
  let J := xwalk.2
  let n := xi.length
  let TL := szymanskiLoop n J (List.replicate n (n + 1), [])
  let L := TL.2
  let k := L.foldl (fun k v => if k < v then v else k) 0
  let anchors0 := (List.replicate (2 + k) ((0 : Nat), (0 : Nat))).set (1 + k) (smax, tmax)
  let anchors1 := segReconstruct xi yi J L n n k anchors0
  anchors1.set 0 (smin, tmin)

/-- The leftward extension `for start.s > done.s && start.t > done.t &&
x0[start.s-1] == y0[start.t-1]` of the anchor loop. -/
def extLeft (x0 y0 : List Nat) (done : Nat × Nat) : Nat → Nat × Nat → Nat × Nat
  | 0, st => st
  | fl + 1, (s, t) =>
    if done.1 < s ∧ done.2 < t ∧ x0.getD (s - 1) 0 = y0.getD (t - 1) 0 then
      extLeft x0 y0 done fl (s - 1, t - 1)
    else (s, t)

/-- The rightward extension `for end.s < smax && end.t < tmax &&
x0[end.s] == y0[end.t]`. -/
def extRight (x0 y0 : List Nat) (smax tmax : Nat) : Nat → Nat × Nat → Nat × Nat
  | 0, st => st
  | fl + 1, (s, t) =>
    if s < smax ∧ t < tmax ∧ x0.getD s 0 = y0.getD t 0 then
      extRight x0 y0 smax tmax fl (s + 1, t + 1)
    else (s, t)

/-- The per-anchor loop of `diffDefault` under anchoring: Myers on each gap. -/
def anchorLoopDefault (x0 y0 : List Nat) (smax0 tmax0 : Nat) (costLimit : Int) :
    List (Nat × Nat) → Nat × Nat → List Bool × List Bool →
    Option (List Bool × List Bool)
  | [], _, st => some st
  | anchor :: rest, done, st =>
    if anchor.1 < done.1 then anchorLoopDefault x0 y0 smax0 tmax0 costLimit rest done st
    else
      let start := extLeft x0 y0 done anchor.1 anchor
      let e := extRight x0 y0 smax0 tmax0 (smax0 - anchor.1) anchor
      match compareGo x0 y0 costLimit (x0.length + y0.length + 2)
          (done.1 : Int) (start.1 : Int) (done.2 : Int) (start.2 : Int) false st with
      | none => none
      | some st' =>
        if e.1 ≥ smax0 ∧ e.2 ≥ tmax0 then some st'
        else anchorLoopDefault x0 y0 smax0 tmax0 costLimit rest e st'

/-- Mark `l[i] := true` for `i ∈ [lo, hi)` at Nat indices. -/
def markRangeN (l : List Bool) (lo hi : Nat) : List Bool :=
  markRange l (lo : Int) (hi : Int)

/-- The per-anchor loop of `diffFast`: raw delete/insert for each gap. -/
def anchorLoopFast (x0 y0 : List Nat) (smax0 tmax0 : Nat) :
    List (Nat × Nat) → Nat × Nat → List Bool × List Bool →
    List Bool × List Bool
  | [], _, st => st
  | anchor :: rest, done, (mx, my) =>
    if anchor.1 < done.1 then anchorLoopFast x0 y0 smax0 tmax0 rest done (mx, my)
    else
      let start := extLeft x0 y0 done anchor.1 anchor
      let e := extRight x0 y0 smax0 tmax0 (smax0 - anchor.1) anchor
      let mx' := markRangeN mx done.1 start.1
      let my' := markRangeN my done.2 start.2
      if e.1 ≥ smax0 ∧ e.2 ≥ tmax0 then (mx', my')
      else anchorLoopFast x0 y0 smax0 tmax0 rest e (mx', my')

/-- Transfer engine-level marks through the back-index mapping:
`rx[xidx[s]] = true` for every marked `s`. -/
def assembleMarks (base : List Bool) (idxs : List Nat) (marks : List Bool) : List Bool :=
  (List.range idxs.length).foldl
    (fun b s => if marks.getD s false then b.set (idxs.getD s 0) true else b) base

/-- `diffMinimal` (internal/impl/api.go): a single optimal Myers run on the
reduced problem. -/
def diffMinimal (pp : PPRes) : Option (List Bool × List Bool) :=
  let x0 := pp.x0
  let y0 := pp.y0
  let b := findChangeBounds x0 y0
  let marks0 := (List.replicate (x0.length + 1) false, List.replicate (y0.length + 1) false)
  match myersRun x0 y0 (b.1 : Int) (b.2.1 : Int) (b.2.2.1 : Int) (b.2.2.2 : Int) true
      marks0.1 marks0.2 with
  | none => none
  | some m => some (assembleMarks pp.rx pp.xidx m.1, assembleMarks pp.ry pp.yidx m.2)

/-- `diffDefault` (internal/impl/api.go): anchoring heuristic when there are
anchors and the stripped reduced window is large enough (or anchoring is
forced), otherwise a single non-optimal Myers run. -/
def diffDefault (pp : PPRes) (forceAnchoring : Bool) : Option (List Bool × List Bool) :=
  let x0 := pp.x0
  let y0 := pp.y0
  let b := findChangeBounds x0 y0
  let smin0 := b.1
  let smax0 := b.2.1
  let tmin0 := b.2.2.1
  let tmax0 := b.2.2.2
  let costLimit := costLimitOf ((smax0 - smin0) + (tmax0 - tmin0))
  let marks0 := (List.replicate (x0.length + 1) false, List.replicate (y0.length + 1) false)
  let anchoring := pp.nanchors > 0 ∧
    ((smax0 - smin0 : Int) + (tmax0 - tmin0 : Int) > anchoringHeuristicMinInputLen)
  let res :=
    if anchoring ∨ forceAnchoring then
      let segs := segments smin0 smax0 tmin0 tmax0 pp.counts x0 y0
      match segs with
      | [] => some marks0  -- unreachable: segments always has the two sentinels
      | done :: rest => anchorLoopDefault x0 y0 smax0 tmax0 costLimit rest done marks0
    else
      compareGo x0 y0 costLimit (x0.length + y0.length + 2)
        (smin0 : Int) (smax0 : Int) (tmin0 : Int) (tmax0 : Int) false marks0
  match res with
  | none => none
  | some m => some (assembleMarks pp.rx pp.xidx m.1, assembleMarks pp.ry pp.yidx m.2)

/-- `diffFast` (internal/impl/api.go): patience-style output. -/
def diffFast (pp : PPRes) : List Bool × List Bool :=
  let x0 := pp.x0
  let y0 := pp.y0
  let b := findChangeBounds x0 y0
  let marks0 := (List.replicate (x0.length + 1) false, List.replicate (y0.length + 1) false)
  let segs := segments b.1 b.2.1 b.2.2.1 b.2.2.2 pp.counts x0 y0
  let m :=
    match segs with
    | [] => marks0
    | done :: rest => anchorLoopFast x0 y0 b.2.1 b.2.2.2 rest done marks0
  (assembleMarks pp.rx pp.xidx m.1, assembleMarks pp.ry pp.yidx m.2)

/-- `impl.Diff(x, y, cfg)` (internal/impl/api.go): result vectors of length
`len(x)+1` and `len(y)+1`. -/
def Diff (x y : List α) (cfg : Config) : Option (List Bool × List Bool) :=
  let rx := List.replicate (x.length + 1) false
  let ry := List.replicate (y.length + 1) false
  let b := findChangeBounds x y
  let smin := b.1
  let smax := b.2.1
  let tmin := b.2.2.1
  let tmax := b.2.2.2
  -- handleTrivialBounds
  if smin ≠ smax ∧ tmin = tmax then
    some (markRangeN rx smin smax, ry)
  else if smin = smax ∧ tmin ≠ tmax then
    some (rx, markRangeN ry tmin tmax)
  else if smin = smax ∧ tmin = tmax then
    some (rx, ry)
  else
    let pp := preprocess rx ry smin smax tmin tmax x y
    match cfg.mode with
    | Mode.minimal => diffMinimal pp
    | Mode.default => diffDefault pp cfg.forceAnchoringHeuristic
    | Mode.fast => some (diffFast pp)

/-! ## The public element-wise API (diff.go) -/

/-- `diff.Op`. -/
inductive Op where
  | match_
  | delete
  | insert
deriving DecidableEq, Repr

/-- `diff.Edit`: for Match both sides are set, for Delete only `x`, for
Insert only `y` (Go leaves the other field at its zero value; `none` embeds
"unset"). -/
structure GEdit (α : Type) where
  op : Op
  ex : Option α
  ey : Option α
deriving DecidableEq, Repr

/-- The inner delete-consuming loop of the `edits` walk (diff.go). -/
def editsDels (x : List α) (rx : List Bool) (n : Nat) :
    Nat → Nat → List (GEdit α) → Nat × List (GEdit α)
  | 0, s, acc => (s, acc)
  | fl + 1, s, acc =>
    if s < n ∧ rx.getD s false then
      editsDels x rx n fl (s + 1) (acc ++ [⟨Op.delete, x[s]?, none⟩])
    else (s, acc)

/-- The inner insert-consuming loop of the `edits` walk. -/
def editsInss (y : List α) (ry : List Bool) (m : Nat) :
    Nat → Nat → List (GEdit α) → Nat × List (GEdit α)
  | 0, t, acc => (t, acc)
  | fl + 1, t, acc =>
    if t < m ∧ ry.getD t false then
      editsInss y ry m fl (t + 1) (acc ++ [⟨Op.insert, none, y[t]?⟩])
    else (t, acc)

/-- The inner match-consuming loop of the `edits` walk. -/
def editsMats (x y : List α) (rx ry : List Bool) (n m : Nat) :
    Nat → Nat → Nat → List (GEdit α) → Nat × Nat × List (GEdit α)
  | 0, s, t, acc => (s, t, acc)
  | fl + 1, s, t, acc =>
    if s < n ∧ t < m ∧ ¬ rx.getD s false ∧ ¬ ry.getD t false then
      editsMats x y rx ry n m fl (s + 1) (t + 1) (acc ++ [⟨Op.match_, x[s]?, y[t]?⟩])
    else (s, t, acc)

/-- The outer `for s < n || t < m` loop of `edits` (diff.go), with fuel;
`none` when the walk makes no progress (the Go loop would spin). -/
def editsLoop (x y : List α) (rx ry : List Bool) (n m : Nat) :
    Nat → Nat → Nat → List (GEdit α) → Option (List (GEdit α))
  | 0, _, _, _ => none
  | fuel + 1, s, t, acc =>
    if s < n ∨ t < m then
      let p1 := editsDels x rx n n s acc
      let p2 := editsInss y ry m m t p1.2
      let p3 := editsMats x y rx ry n m (n + m) p1.1 p2.1 p2.2
      editsLoop x y rx ry n m fuel p3.1 p3.2.1 p3.2.2
    else some acc

/-- `edits(x, y, rx, ry)` (diff.go): the user-facing edit sequence from the
result vectors; `n, m = len(rx)-1, len(ry)-1`. -/
def editsOf (x y : List α) (rx ry : List Bool) : Option (List (GEdit α)) :=
  editsLoop x y rx ry (rx.length - 1) (ry.length - 1)
    (rx.length + ry.length + 2) 0 0 []

/-- `diff.Edits(x, y, opts...)` (diff.go): only `Optimal` is allowed.
A Go panic anywhere in the pipeline is `Except.error`. -/
def Edits (x y : List α) (opts : List GoOption) : Except String (List (GEdit α)) :=
  match FromOptions opts Flag.optimalF with
  | Except.error e => Except.error e
  | Except.ok cfg =>
    match Diff x y cfg with
    | none => Except.error "diff: internal invariant violation"
    | some (rx, ry) =>
      match editsOf x y rx ry with
      | none => Except.error "diff: internal invariant violation"
      | some es => Except.ok es

/-- `diff.Hunk` (diff.go). -/
structure GHunk (α : Type) where
  posX : Int
  endX : Int
  posY : Int
  endY : Int
  edits : List (GEdit α)
deriving DecidableEq, Repr

/-- The per-hunk edit walk of `hunks` (diff.go): the same three inner loops
bounded by the hunk rectangle. -/
def hunkEditsLoop (x y : List α) (rx ry : List Bool) (hs1 ht1 : Nat) :
    Nat → Nat → Nat → List (GEdit α) → Option (List (GEdit α))
  | 0, _, _, _ => none
  | fuel + 1, s, t, acc =>
    if s < hs1 ∨ t < ht1 then
      let p1 := editsDels x rx hs1 hs1 s acc
      let p2 := editsInss y ry ht1 ht1 t p1.2
      let p3 := editsMats x y rx ry hs1 ht1 (hs1 + ht1) p1.1 p2.1 p2.2
      hunkEditsLoop x y rx ry hs1 ht1 fuel p3.1 p3.2.1 p3.2.2
    else some acc

/-- `hunks(x, y, rx, ry, cfg)` (diff.go): group with `rvecs.Hunks`, then walk
each hunk rectangle. -/
def hunksOf (x y : List α) (rx ry : List Bool) (context : Int) :
    Option (List (GHunk α)) :=
  match rvecsHunks rx ry context with
  | none => none
  | some rhs =>
    rhs.foldl
      (fun acc h =>
        match acc with
        | none => none
        | some hs =>
          match hunkEditsLoop x y rx ry h.s1.toNat h.t1.toNat
              (rx.length + ry.length + 2) h.s0.toNat h.t0.toNat [] with
          | none => none
          | some es => some (hs ++ [⟨h.s0, h.s1, h.t0, h.t1, es⟩]))
      (some [])

/-- `diff.Hunks(x, y, opts...)` (diff.go): `Context` and `Optimal` allowed. -/
def Hunks (x y : List α) (opts : List GoOption) : Except String (List (GHunk α)) :=
  match FromOptions opts (Flag.contextF + Flag.optimalF) with
  | Except.error e => Except.error e
  | Except.ok cfg =>
    match Diff x y cfg with
    | none => Except.error "diff: internal invariant violation"
    | some (rx, ry) =>
      match hunksOf x y rx ry cfg.context with
      | none => Except.error "diff: internal invariant violation"
      | some hs => Except.ok hs

/-! ### Indent heuristic (internal/indentheuristic/indentheuristic.go)

Lines are modelled as `List Char` (a `byteview.ByteView` of a line). The Go
code mutates the result slice `r` through a `scanner`; here the scanner state
and the slice are threaded explicitly. Panics become `none`; loop fuel is
generous enough for all reachable states, with exhaustion also mapped to
`none` so no result is ever fabricated. -/

def maxSliding : Int := 100

def maxIndent : Int := 200

def maxBlanks : Int := 20

def startOfFilePenalty : Int := 1

def endOfFilePenalty : Int := 21

def totalBlankWeight : Int := -30

def postBlankWeight : Int := 6

def relativeIndentPenalty : Int := -4

def relativeIndentWithBlankPenalty : Int := 10

def relativeOutdentPenalty : Int := 24

def relativeOutdentWithBlankPenalty : Int := 17

def relativeDentPenalty : Int := 23

def relativeDentWithBlankPenalty : Int := 17

def indentWeight : Int := 60

/-- Inner loop of `getIndent`: fold over the line's bytes, accumulating the
indent. `' '` adds 1, tab advances to the next multiple of 8, `\n`/`\v`/`\r`
are ignored, any other byte returns the accumulated indent; the running value
is clamped to `maxIndent`; a line of only whitespace yields `-1`. -/
def getIndentGo : List Char → Int → Int
  | [], _ => -1
  | c :: cs, indent =>
    if c = ' ' ∨ c = '\t' ∨ c = '\n' ∨ c = Char.ofNat 11 ∨ c = '\r' then
      let indent' : Int :=
        if c = ' ' then indent + 1
        else if c = '\t' then indent + (8 - indent % 8)
        else indent
      if indent' ≥ maxIndent then maxIndent else getIndentGo cs indent'
    else indent

/-- `getIndent(line)` from indentheuristic.go. -/
def getIndent (line : List Char) : Int := getIndentGo line 0

/-- `scanner` (indentheuristic.go): `start`/`end` bounds of the current group;
the `lines` and `r` slices are passed to each operation instead of being
stored. The Go field `end` is `end_` here (`end` is reserved in Lean). -/
structure Scanner where
  start : Int
  end_ : Int
deriving DecidableEq, Repr

/-- `scanner.groupLen`. -/
def groupLen (sc : Scanner) : Int := sc.end_ - sc.start

/-- The `for s.end < len(s.r)-1 && s.r[s.end] { s.end++ }` scan. -/
def scanFwd (r : List Bool) : Nat → Int → Int
  | 0, e => e
  | fuel + 1, e =>
    if e < (r.length : Int) - 1 ∧ r.getD e.toNat false = true then
      scanFwd r fuel (e + 1)
    else e

/-- The `for s.start > 0 && s.r[s.start-1] { s.start-- }` scan. -/
def scanBwd (r : List Bool) : Nat → Int → Int
  | 0, s => s
  | fuel + 1, s =>
    if s > 0 ∧ r.getD (s - 1).toNat false = true then
      scanBwd r fuel (s - 1)
    else s

/-- `scanner.nextGroup`: `none` encodes the Go `return false`. -/
def nextGroup (r : List Bool) (sc : Scanner) : Option Scanner :=
  if sc.end_ = (r.length : Int) - 1 then none
  else
    let st := sc.end_ + 1
    some ⟨st, scanFwd r (r.length + 1) st⟩

/-- `scanner.prevGroup`: `none` encodes the Go `return false`. -/
def prevGroup (r : List Bool) (sc : Scanner) : Option Scanner :=
  if sc.start = 0 then none
  else
    let e := sc.start - 1
    some ⟨scanBwd r (r.length + 1) e, e⟩

/-- `scanner.slideGroupDown`: on success returns the updated scanner and the
updated result slice. Line equality is compared through the bounds-checked
lookups (both indices are in range in every reachable state). -/
def slideGroupDown (lines : List (List Char)) (r : List Bool) (sc : Scanner) :
    Option (Scanner × List Bool) :=
  if sc.end_ < (r.length : Int) - 1 ∧
      lines[sc.start.toNat]? = lines[sc.end_.toNat]? then
    let r' := (r.set sc.start.toNat false).set sc.end_.toNat true
    some (⟨sc.start + 1, scanFwd r' (r'.length + 1) (sc.end_ + 1)⟩, r')
  else none

/-- `scanner.slideGroupUp`. -/
def slideGroupUp (lines : List (List Char)) (r : List Bool) (sc : Scanner) :
    Option (Scanner × List Bool) :=
  if sc.start > 0 ∧
      lines[(sc.start - 1).toNat]? = lines[(sc.end_ - 1).toNat]? then
    let r' := (r.set (sc.start - 1).toNat true).set (sc.end_ - 1).toNat false
    some (⟨scanBwd r' (r'.length + 1) (sc.start - 1), sc.end_ - 1⟩, r')
  else none

/-- `measure` (indentheuristic.go). -/
structure Measure where
  endOfFile : Bool := false
  indent : Int := 0
  preBlank : Int := 0
  preIndent : Int := 0
  postBlank : Int := 0
  postIndent : Int := 0
deriving DecidableEq, Repr

/-- The `for i := shift - 1; i >= 0; i--` loop of `measureShift`: returns the
final `(preIndent, preBlank)`. -/
def preScanGo (lines : List (List Char)) : Nat → Int → Int → Int × Int
  | 0, _, preBlank => (-1, preBlank)
  | fuel + 1, i, preBlank =>
    if i < 0 then (-1, preBlank)
    else
      let pi := getIndent (lines.getD i.toNat [])
      if pi ≠ -1 then (pi, preBlank)
      else
        let pb := preBlank + 1
        if pb = maxBlanks then (0, pb)
        else preScanGo lines fuel (i - 1) pb

/-- The `for i := shift + 1; i < len(lines); i++` loop of `measureShift`:
returns the final `(postIndent, postBlank)`. -/
def postScanGo (lines : List (List Char)) : Nat → Int → Int → Int × Int
  | 0, _, postBlank => (-1, postBlank)
  | fuel + 1, i, postBlank =>
    if i ≥ (lines.length : Int) then (-1, postBlank)
    else
      let pi := getIndent (lines.getD i.toNat [])
      if pi ≠ -1 then (pi, postBlank)
      else
        let pb := postBlank + 1
        if pb = maxBlanks then (0, pb)
        else postScanGo lines fuel (i + 1) pb

/-- `measureShift(lines, shift)`. -/
def measureShift (lines : List (List Char)) (shift : Int) : Measure :=
  let eofInd : Bool × Int :=
    if shift ≥ (lines.length : Int) then (true, -1)
    else (false, getIndent (lines.getD shift.toNat []))
  let pre := preScanGo lines (lines.length + 1) (shift - 1) 0
  let post := postScanGo lines (lines.length + 1) (shift + 1) 0
  ⟨eofInd.1, eofInd.2, pre.2, pre.1, post.2, post.1⟩

/-- `shiftScore` (indentheuristic.go). -/
structure ShiftScore where
  effectiveIndent : Int := 0
  penalty : Int := 0
deriving DecidableEq, Repr

/-- `cmp.Compare` on `Int`. -/
def compareIntGo (a b : Int) : Int :=
  if a < b then -1 else if a = b then 0 else 1

/-- `shiftScore.add` (indentheuristic.go, lines 321–378), translated
branch-for-branch: in the `indent > m.preIndent`, no-blank branch the source
executes `s.penalty = relativeIndentPenalty` (a plain assignment), and the
start-of-file test is `m.preIndent == 1 && m.preBlank == 0`. -/
def ShiftScore.add (s : ShiftScore) (m : Measure) : ShiftScore :=
  let p0 := s.penalty
  let p1 := if m.preIndent = 1 ∧ m.preBlank = 0 then p0 + startOfFilePenalty else p0
  let p2 := if m.endOfFile then p1 + endOfFilePenalty else p1
  let postBlank : Int := if m.indent = -1 then 1 + m.postBlank else 0
  let totalBlank := m.preBlank + postBlank
  let p3 := p2 + totalBlankWeight * totalBlank
  let p4 := p3 + postBlankWeight * postBlank
  let indent := if m.indent = -1 then m.postIndent else m.indent
  let eff := s.effectiveIndent + indent
  let p5 :=
    if indent = -1 ∨ m.preIndent = -1 then p4
    else if indent > m.preIndent then
      if totalBlank ≠ 0 then p4 + relativeIndentWithBlankPenalty
      else relativeIndentPenalty
    else if indent = m.preIndent then p4
    else if m.postIndent ≠ -1 ∧ m.postIndent > indent then
      if totalBlank ≠ 0 then p4 + relativeOutdentWithBlankPenalty
      else p4 + relativeOutdentPenalty
    else
      if totalBlank ≠ 0 then p4 + relativeDentWithBlankPenalty
      else p4 + relativeDentPenalty
  ⟨eff, p5⟩

/-- `shiftScore.cmp`. -/
def ShiftScore.cmp (s t : ShiftScore) : Int :=
  indentWeight * compareIntGo s.effectiveIndent t.effectiveIndent +
    s.penalty - t.penalty

/-- The `for shift := max(...); shift <= s.end; shift++` candidate loop of
`apply0`: returns `(bestShift, bestScore)`. -/
def bestShiftLoop (lines : List (List Char)) (grpLen hi : Int) :
    Nat → Int → Int → ShiftScore → Int × ShiftScore
  | 0, _, best, bs => (best, bs)
  | fuel + 1, shift, best, bs =>
    if shift ≤ hi then
      let score :=
        ShiftScore.add (ShiftScore.add ⟨0, 0⟩ (measureShift lines shift))
          (measureShift lines (shift - grpLen))
      if best = -1 ∨ ShiftScore.cmp score bs ≤ 0 then
        bestShiftLoop lines grpLen hi fuel (shift + 1) shift score
      else bestShiftLoop lines grpLen hi fuel (shift + 1) best bs
    else (best, bs)

/-- `for s.slideGroupUp() { if !so.prevGroup() { panic } }` in `apply0`. -/
def slideUpAll (lines : List (List Char)) (ro : List Bool) :
    Nat → Scanner → Scanner → List Bool → Option (Scanner × Scanner × List Bool)
  | 0, _, _, _ => none
  | fuel + 1, sc, so, r =>
    match slideGroupUp lines r sc with
    | none => some (sc, so, r)
    | some (sc', r') =>
      match prevGroup ro so with
      | none => none
      | some so' => slideUpAll lines ro fuel sc' so' r'

/-- `for s.slideGroupDown() { ... }` in `apply0`, threading `matchingEnd`. -/
def slideDownAll (lines : List (List Char)) (ro : List Bool) :
    Nat → Scanner → Scanner → List Bool → Int →
      Option (Scanner × Scanner × List Bool × Int)
  | 0, _, _, _, _ => none
  | fuel + 1, sc, so, r, me =>
    match slideGroupDown lines r sc with
    | none => some (sc, so, r, me)
    | some (sc', r') =>
      match nextGroup ro so with
      | none => none
      | some so' =>
        let me' := if groupLen so' > 0 then sc'.end_ else me
        slideDownAll lines ro fuel sc' so' r' me'

/-- The `for grpLen != s.groupLen()` stabilisation loop of `apply0`: returns
the stabilised scanners, result slice, `grpLen`, `matchingEnd` and `minEnd`. -/
def stabilize (lines : List (List Char)) (ro : List Bool) :
    Nat → Scanner → Scanner → List Bool → Int → Int → Int →
      Option (Scanner × Scanner × List Bool × Int × Int × Int)
  | 0, _, _, _, _, _, _ => none
  | fuel + 1, sc, so, r, grpLen, me, minEnd =>
    if grpLen = ZnkrDiff.groupLen sc then some (sc, so, r, grpLen, me, minEnd)
    else
      let grpLen' := ZnkrDiff.groupLen sc
      match slideUpAll lines ro (r.length + 1) sc so r with
      | none => none
      | some (sc1, so1, r1) =>
        let minEnd' := sc1.end_
        let me1 : Int := if ZnkrDiff.groupLen so1 > 0 then sc1.end_ else -1
        match slideDownAll lines ro (r1.length + 1) sc1 so1 r1 me1 with
        | none => none
        | some (sc2, so2, r2, me2) =>
          stabilize lines ro fuel sc2 so2 r2 grpLen' me2 minEnd'

/-- `for so.groupLen() == 0 { slideGroupUp; prevGroup }` (align-with-match). -/
def alignLoop (lines : List (List Char)) (ro : List Bool) :
    Nat → Scanner → Scanner → List Bool → Option (Scanner × Scanner × List Bool)
  | 0, _, _, _ => none
  | fuel + 1, sc, so, r =>
    if groupLen so = 0 then
      match slideGroupUp lines r sc with
      | none => none
      | some (sc', r') =>
        match prevGroup ro so with
        | none => none
        | some so' => alignLoop lines ro fuel sc' so' r'
    else some (sc, so, r)

/-- `for s.end > bestShift { slideGroupUp; prevGroup }`. -/
def shiftToBest (lines : List (List Char)) (ro : List Bool) (bestShift : Int) :
    Nat → Scanner → Scanner → List Bool → Option (Scanner × Scanner × List Bool)
  | 0, _, _, _ => none
  | fuel + 1, sc, so, r =>
    if sc.end_ > bestShift then
      match slideGroupUp lines r sc with
      | none => none
      | some (sc', r') =>
        match prevGroup ro so with
        | none => none
        | some so' => shiftToBest lines ro bestShift fuel sc' so' r'
    else some (sc, so, r)

/-- The outer `for s.nextGroup()` loop of `apply0`, including the final
sync check `if so.nextGroup() { panic }`. -/
def apply0Loop (lines : List (List Char)) (ro : List Bool) :
    Nat → Scanner → Scanner → List Bool → Option (List Bool)
  | 0, _, _, _ => none
  | fuel + 1, sc, so, r =>
    match nextGroup r sc with
    | none =>
      match nextGroup ro so with
      | some _ => none
      | none => some r
    | some sc1 =>
      match nextGroup ro so with
      | none => none
      | some so1 =>
        if groupLen sc1 = 0 then apply0Loop lines ro fuel sc1 so1 r
        else
          match stabilize lines ro (r.length + 1) sc1 so1 r 0 (-1) sc1.end_ with
          | none => none
          | some (sc2, so2, r2, grpLen, me, minEnd) =>
            if minEnd = sc2.end_ then apply0Loop lines ro fuel sc2 so2 r2
            else if me ≠ -1 then
              match alignLoop lines ro (r2.length + 1) sc2 so2 r2 with
              | none => none
              | some (sc3, so3, r3) => apply0Loop lines ro fuel sc3 so3 r3
            else
              let lo := max (max minEnd (sc2.end_ - grpLen - 1))
                (sc2.end_ - maxSliding)
              let best := bestShiftLoop lines grpLen sc2.end_ 102 lo (-1) ⟨0, 0⟩
              match shiftToBest lines ro best.1 (r2.length + 1) sc2 so2 r2 with
              | none => none
              | some (sc4, so4, r4) => apply0Loop lines ro fuel sc4 so4 r4

/-- `apply0(lines, lineso, r, ro)`: only `r` is mutated (the other scanner
never slides), so `lineso` is unused beyond the Go signature and the result
is the updated `r`. -/
def apply0 (lines _lineso : List (List Char)) (r ro : List Bool) :
    Option (List Bool) :=
  apply0Loop lines ro ((r.length + 2) * (r.length + 2)) ⟨-1, -1⟩ ⟨-1, -1⟩ r

/-- `indentheuristic.Apply(x, y, rx, ry)`: `apply0` for deletions, then for
insertions; the second call reads the updated `rx`. -/
def Apply (x y : List (List Char)) (rx ry : List Bool) :
    Option (List Bool × List Bool) :=
  match apply0 x y rx ry with
  | none => none
  | some rx' =>
    match apply0 y x ry rx' with
    | none => none
    | some ry' => some (rx', ry')

/-! ## Definitions used by the verification statements -/

/-- Applying an edit sequence to `x`: each Delete element is removed, each
Insert element is added, each Match element is kept. -/
def applyEdits (es : List (GEdit α)) : List α :=
  es.filterMap fun e =>
    match e.op with
    | Op.delete => none
    | Op.insert => e.ey
    | Op.match_ => e.ex

/-- Pairwise hunk separation: every hunk starts at least one row after the
previous hunk ends. -/
def hunkGaps : List RHunk → Bool
  | h1 :: h2 :: rest => decide (h2.s0 - h1.s1 ≥ 1) && hunkGaps (h2 :: rest)
  | _ => true

/-- The branch condition of `diffDefault` exactly as the code computes it:
anchors were found and the change window of the reduced inputs is strictly
larger than `anchoringHeuristicMinInputLen`. -/
def anchoringDispatch (pp : PPRes) : Bool :=
  let b := findChangeBounds pp.x0 pp.y0
  decide (pp.nanchors > 0 ∧
    ((b.2.1 - b.1 : Int) + (b.2.2.2 - b.2.2.1 : Int) > anchoringHeuristicMinInputLen))

/-- The dispatch condition as the spec words it: `n_anchors > 0` and
`|x0| + |y0| ≥ 5000` (non-strict, and measured on the whole reduced slices). -/
def specAnchoringDispatch (pp : PPRes) : Bool :=
  decide (pp.nanchors > 0 ∧
    ((pp.x0.length : Int) + (pp.y0.length : Int) ≥ anchoringHeuristicMinInputLen))

/-- The anchor-partition branch of `diffDefault` as a standalone function. -/
def diffDefaultAnchored (pp : PPRes) : Option (List Bool × List Bool) :=
  let x0 := pp.x0
  let y0 := pp.y0
  let b := findChangeBounds x0 y0
  let costLimit := costLimitOf ((b.2.1 - b.1) + (b.2.2.2 - b.2.2.1))
  let marks0 := (List.replicate (x0.length + 1) false, List.replicate (y0.length + 1) false)
  let segs := segments b.1 b.2.1 b.2.2.1 b.2.2.2 pp.counts x0 y0
  let res :=
    match segs with
    | [] => some marks0
    | done :: rest => anchorLoopDefault x0 y0 b.2.1 b.2.2.2 costLimit rest done marks0
  match res with
  | none => none
  | some m => some (assembleMarks pp.rx pp.xidx m.1, assembleMarks pp.ry pp.yidx m.2)

/-- The single-Myers branch of `diffDefault` (one `compare` with
`optimal = false`) as a standalone function. -/
def diffDefaultPlain (pp : PPRes) : Option (List Bool × List Bool) :=
  let x0 := pp.x0
  let y0 := pp.y0
  let b := findChangeBounds x0 y0
  let costLimit := costLimitOf ((b.2.1 - b.1) + (b.2.2.2 - b.2.2.1))
  let marks0 := (List.replicate (x0.length + 1) false, List.replicate (y0.length + 1) false)
  match compareGo x0 y0 costLimit (x0.length + y0.length + 2)
      (b.1 : Int) (b.2.1 : Int) (b.2.2.1 : Int) (b.2.2.2 : Int) false marks0 with
  | none => none
  | some m => some (assembleMarks pp.rx pp.xidx m.1, assembleMarks pp.ry pp.yidx m.2)

/-- A boundary input for the anchoring dispatch: 2500 elements per side, one
anchor (`7`), no common prefix or suffix, nothing dropped by `preprocess`, so
the reduced problem has exactly `|x0| + |y0| = 5000`. -/
def c4x : List Nat := List.replicate 2499 0 ++ [7]

/-- The other side of the boundary input (see `c4x`). -/
def c4y : List Nat := 7 :: List.replicate 2499 0

/-- The preprocessed state the driver reaches on `(c4x, c4y)`. -/
def pp4 : PPRes :=
  preprocess (List.replicate 2501 false) (List.replicate 2501 false) 0 2500 0 2500 c4x c4y

/-- A forward v-array layer for exercising the GOOD_DIAGONAL forward scan:
diagonal 0 carries endpoint 700, every other read position is the `intMin`
sentinel. -/
def c5curF : Int → Int := fun k => if k = 0 then 700 else intMin

/-- The previous forward layer below `c5curF`: endpoint 690 on diagonal −1
and 650 on diagonal 1 (so the replayed pre-point of diagonal 0 is (690, 691),
nine diagonal steps below (700, 700)). -/
def c5prevF : Int → Int := fun k =>
  if k = -1 then 690 else if k = 1 then 650 else intMin

/-- A backward layer with every read position out of the window (so the
backward GOOD_DIAGONAL scan records nothing). -/
def c5curB : Int → Int := fun _ => intMax

/-- The previous backward layer below `c5curB`. -/
def c5prevB : Int → Int := fun _ => intMax

/-- `true` iff no line before the split position `shift` is non-blank (the
spec's start-of-file situation: the shift line is the first non-blank line of
the input). -/
def noNonBlankBefore (lines : List (List Char)) (shift : Int) : Bool :=
  (List.range lines.length).all fun i =>
    decide ((i : Int) < shift → getIndent (lines.getD i []) = -1)

/-- The score update as the spec's table states it: identical to
`ShiftScore.add` on `measureShift lines shift` except that (i) the
start-of-file contribution applies exactly when no non-blank line precedes
the split, and (ii) every contribution is added to the accumulated penalty
(the `indent > preIndent`, no-blank row adds `relativeIndentPenalty`). -/
def specShiftScoreAdd (lines : List (List Char)) (shift : Int) (s : ShiftScore) :
    ShiftScore :=
  let m := measureShift lines shift
  let p0 := s.penalty
  let p1 := if noNonBlankBefore lines shift then p0 + startOfFilePenalty else p0
  let p2 := if m.endOfFile then p1 + endOfFilePenalty else p1
  let postBlank : Int := if m.indent = -1 then 1 + m.postBlank else 0
  let totalBlank := m.preBlank + postBlank
  let p3 := p2 + totalBlankWeight * totalBlank
  let p4 := p3 + postBlankWeight * postBlank
  let indent := if m.indent = -1 then m.postIndent else m.indent
  let eff := s.effectiveIndent + indent
  let p5 :=
    if indent = -1 ∨ m.preIndent = -1 then p4
    else if indent > m.preIndent then
      if totalBlank ≠ 0 then p4 + relativeIndentWithBlankPenalty
      else p4 + relativeIndentPenalty
    else if indent = m.preIndent then p4
    else if m.postIndent ≠ -1 ∧ m.postIndent > indent then
      if totalBlank ≠ 0 then p4 + relativeOutdentWithBlankPenalty
      else p4 + relativeOutdentPenalty
    else
      if totalBlank ≠ 0 then p4 + relativeDentWithBlankPenalty
      else p4 + relativeDentPenalty
  ⟨eff, p5⟩

/-- The two-line input whose shift candidates exercise both divergences of
`ShiftScore.add` from the spec's table. -/
def c7lines : List (List Char) := [[' ', 'a', '\n'], [' ', ' ', 'b', '\n']]

/-- A one-line input whose position 0 is a true start of file. -/
def c7lines1 : List (List Char) := [['x', '\n']]

/-- Lines of the x side of the idempotence counterexample. -/
def c8x : List (List Char) := [['a', '\n'], ['b', '\n'], ['b', '\n']]

/-- Lines of the y side of the idempotence counterexample. -/
def c8y : List (List Char) := [['b', '\n'], ['a', '\n'], ['a', '\n'], ['b', '\n']]

/-! ## Theorems -/

/-- C10: `Context` accepts negative arguments without error and clamps them
to zero: for every `n < 0` and all inputs, `Hunks x y [Context n]` returns
the same hunks as `Hunks x y [Context 0]`. -/
theorem C10_context_clamps_negative {α : Type} [DecidableEq α]
    (x y : List α) (n : Int) (h : n < 0) :
    Hunks x y [GoOption.context n] = Hunks x y [GoOption.context 0] := by
  have hm : max (0 : Int) n = 0 := max_eq_left h.le
  have hopt : FromOptions [GoOption.context n] (Flag.contextF + Flag.optimalF) =
      FromOptions [GoOption.context 0] (Flag.contextF + Flag.optimalF) := by
    simp [FromOptions, fromOptionsGo, applyOption, hm]
  unfold Hunks
  rw [hopt]

/-- Closed instance of `C10_context_clamps_negative` at `n = -5`. -/
theorem C10_witness :
    (-5 : Int) < 0 ∧
      Hunks [(0 : Nat), 1] [1] [GoOption.context (-5)] =
        Hunks [(0 : Nat), 1] [1] [GoOption.context 0] :=
  ⟨by decide, C10_context_clamps_negative [0, 1] [1] (-5) (by decide)⟩

/-- Helper: the option-processing loop succeeds when every option's flag is
inside `allowed` and none is the anchoring option (so the final
mode/force check cannot fire). -/
theorem fromOptionsGo_ok (allowed : Flag) :
    ∀ (opts : List GoOption) (cfg : Config),
      cfg.forceAnchoringHeuristic = false →
      (∀ o ∈ opts,
        (∀ c : Config, (applyOption c o).2 &&& (2 ^ 64 - 1 - allowed) = 0) ∧
          o ≠ GoOption.anchoring) →
      ∃ cfg', fromOptionsGo allowed cfg opts = Except.ok cfg' := by
  intro opts
  induction opts with
  | nil =>
    intro cfg hf _
    exact ⟨cfg, by simp [fromOptionsGo, hf]⟩
  | cons o rest ih =>
    intro cfg hf h
    have ho := h o (List.mem_cons_self o rest)
    have hfl := ho.1 cfg
    have hforce : ((applyOption cfg o).1).forceAnchoringHeuristic = false := by
      cases o with
      | context n => simpa [applyOption] using hf
      | optimal => simpa [applyOption] using hf
      | fast => simpa [applyOption] using hf
      | indentHeuristic => simpa [applyOption] using hf
      | anchoring => exact absurd rfl ho.2
    obtain ⟨cfg', hrest⟩ := ih (applyOption cfg o).1 hforce
      (fun o' m => h o' (List.mem_cons_of_mem o m))
    refine ⟨cfg', ?_⟩
    rw [fromOptionsGo, if_neg (not_not_intro hfl)]
    exact hrest

/-- Helper: whenever the option loop succeeds, the resulting config never
combines `ForceAnchoringHeuristic` with a non-default mode. -/
theorem fromOptionsGo_no_conflict (allowed : Flag) :
    ∀ (opts : List GoOption) (cfg cfg' : Config),
      fromOptionsGo allowed cfg opts = Except.ok cfg' →
      ¬(cfg'.forceAnchoringHeuristic = true ∧ cfg'.mode ≠ Mode.default) := by
  intro opts
  induction opts with
  | nil =>
    intro cfg cfg' h hcontra
    by_cases hc : cfg.mode ≠ Mode.default ∧ cfg.forceAnchoringHeuristic
    · rw [fromOptionsGo, if_pos hc] at h
      cases h
    · rw [fromOptionsGo, if_neg hc] at h
      cases h
      exact hc ⟨hcontra.2, hcontra.1⟩
  | cons o rest ih =>
    intro cfg cfg' h
    by_cases hfl : (applyOption cfg o).2 &&& (2 ^ 64 - 1 - allowed) = 0
    · rw [fromOptionsGo, if_neg (not_not_intro hfl)] at h
      exact ih (applyOption cfg o).1 cfg' h
    · rw [fromOptionsGo, if_pos hfl] at h
      cases h

/-- C9: option misuse is rejected at option-composition time, before any
diff computation: an option-composition error surfaces unchanged (and
independently of the inputs) from `Edits` and `Hunks`; a non-applicable
option (`Context` passed to `Edits`) always errors; option lists drawn from
the callee's allowed set always compose; and a successful composition never
combines `ForceAnchoringHeuristic` with a non-default mode. -/
theorem C9_option_rejection {α : Type} [DecidableEq α] :
    (∀ (x y : List α) (opts : List GoOption) (e : String),
        FromOptions opts Flag.optimalF = Except.error e →
          Edits x y opts = Except.error e) ∧
    (∀ (x y : List α) (opts : List GoOption) (e : String),
        FromOptions opts (Flag.contextF + Flag.optimalF) = Except.error e →
          Hunks x y opts = Except.error e) ∧
    (∀ (x y : List α) (n : Int),
        Edits x y [GoOption.context n] = Except.error "Option not allowed here") ∧
    (∀ opts : List GoOption, (∀ o ∈ opts, o = GoOption.optimal) →
        ∃ cfg, FromOptions opts Flag.optimalF = Except.ok cfg) ∧
    (∀ opts : List GoOption,
        (∀ o ∈ opts, o = GoOption.optimal ∨ ∃ n, o = GoOption.context n) →
        ∃ cfg, FromOptions opts (Flag.contextF + Flag.optimalF) = Except.ok cfg) ∧
    (∀ (opts : List GoOption) (allowed : Flag) (cfg : Config),
        FromOptions opts allowed = Except.ok cfg →
          ¬(cfg.forceAnchoringHeuristic = true ∧ cfg.mode ≠ Mode.default)) := by
  refine ⟨?_, ?_, ?_, ?_, ?_, ?_⟩
  · intro x y opts e h
    unfold Edits
    rw [h]
  · intro x y opts e h
    unfold Hunks
    rw [h]
  · intro x y n
    have h1 : FromOptions [GoOption.context n] Flag.optimalF =
        Except.error "Option not allowed here" := by
      simp only [FromOptions, fromOptionsGo, applyOption]
      norm_num [Flag.contextF, Flag.optimalF]
    unfold Edits
    rw [h1]
  · intro opts h
    refine fromOptionsGo_ok Flag.optimalF opts Config.defaultCfg rfl ?_
    intro o m
    rw [h o m]
    refine ⟨fun c => ?_, fun hco => GoOption.noConfusion hco⟩
    rw [show (applyOption c GoOption.optimal).2 = Flag.optimalF from rfl]
    decide
  · intro opts h
    refine fromOptionsGo_ok (Flag.contextF + Flag.optimalF) opts Config.defaultCfg rfl ?_
    intro o m
    rcases h o m with h1 | ⟨n, h2⟩
    · rw [h1]
      refine ⟨fun c => ?_, fun hco => GoOption.noConfusion hco⟩
      rw [show (applyOption c GoOption.optimal).2 = Flag.optimalF from rfl]
      decide
    · rw [h2]
      refine ⟨fun c => ?_, fun hco => GoOption.noConfusion hco⟩
      rw [show (applyOption c (GoOption.context n)).2 = Flag.contextF from rfl]
      decide
  · intro opts allowed cfg h
    exact fromOptionsGo_no_conflict allowed opts Config.defaultCfg cfg h

/-- Closed instance of `C9_option_rejection`: `Context` passed to `Edits` is
rejected; `[Optimal]` composes for `Edits`. -/
theorem C9_witness :
    Edits [(0 : Nat)] [1] [GoOption.context 2] = Except.error "Option not allowed here" ∧
    (∃ cfg, FromOptions [GoOption.optimal] Flag.optimalF = Except.ok cfg) :=
  ⟨(C9_option_rejection (α := Nat)).2.2.1 [0] [1] 2,
   (C9_option_rejection (α := Nat)).2.2.2.1 [GoOption.optimal] (by simp)⟩

/-- C3: `Edits("ABCABBA", "CBABAC")` yields exactly the trace
`D I M D M M D M I`, i.e. `−A +C B −C A B −B A +C`; and on ties between the
two predecessor diagonals the forward step prefers the deletion predecessor
(case 1) while the backward step prefers the insertion predecessor. -/
theorem C3_abcabba_trace :
    ((Edits "ABCABBA".data "CBABAC".data []).map
        (fun es => es.map (fun e => (e.op, e.ex, e.ey))) =
      Except.ok [(Op.delete, some 'A', none), (Op.insert, none, some 'C'),
        (Op.match_, some 'B', some 'B'), (Op.delete, some 'C', none),
        (Op.match_, some 'A', some 'A'), (Op.match_, some 'B', some 'B'),
        (Op.delete, some 'B', none), (Op.match_, some 'A', some 'A'),
        (Op.insert, none, some 'C')]) ∧
    (∀ (prevF : Int → Int) (k : Int), prevF (k - 1) = prevF (k + 1) →
        fwdStep prevF k = prevF (k - 1) + 1) ∧
    (∀ (prevB : Int → Int) (k : Int), prevB (k - 1) = prevB (k + 1) →
        bwdStep prevB k = prevB (k + 1) - 1) := by
  refine ⟨by rfl, ?_, ?_⟩
  · intro f k h
    unfold fwdStep
    rw [h]
    simp
  · intro f k h
    unfold bwdStep
    rw [h]
    simp

/-- Closed instance of the tie-break parts of `C3_abcabba_trace`. -/
theorem C3_witness :
    fwdStep (fun _ => (5 : Int)) 0 = 6 ∧ bwdStep (fun _ => (5 : Int)) 0 = 4 := by
  constructor
  · have h := C3_abcabba_trace.2.1 (fun _ => (5 : Int)) 0 rfl
    simpa using h
  · have h := C3_abcabba_trace.2.2 (fun _ => (5 : Int)) 0 rfl
    simpa using h

/-- C6 counterexample: on `x = "xabcy"`, `y = "abc"` with context 1 the
grouper emits hunks `[0,2)` and `[3,5)`; their gap `3 − 2 = 1` equals the
context instead of exceeding it. -/
theorem C6_counterexample :
    (Hunks "xabcy".data "abc".data [GoOption.context 1]).map
        (fun hs => hs.map fun h => (h.posX, h.endX)) =
      Except.ok [((0 : Int), (2 : Int)), ((3 : Int), (5 : Int))] ∧
    ¬((3 : Int) - 2 > 1) :=
  ⟨by rfl, by decide⟩

/-- C8: the indent heuristic is not idempotent on vectors produced by the
engine: on `(c8x, c8y)` the engine yields `rx, ry`; one application moves the
insert group, a second application then also moves the delete group. -/
theorem C8_not_idempotent :
    Diff c8x c8y Config.defaultCfg =
      some ([false, true, false, false], [true, false, true, false, false]) ∧
    Apply c8x c8y [false, true, false, false] [true, false, true, false, false] =
      some ([false, true, false, false], [true, true, false, false, false]) ∧
    Apply c8x c8y [false, true, false, false] [true, true, false, false, false] =
      some ([false, false, true, false], [true, true, false, false, false]) ∧
    ([false, false, true, false] : List Bool) ≠ [false, true, false, false] :=
  ⟨by decide, by decide, by decide, by decide⟩

/-- C7: the penalty accumulated by `shiftScore.add` diverges from the spec's
table: over the two measured splits of `c7lines` the code yields −4 where the
table's summed contributions yield −7 (the `indent > preIndent`, no-blank
branch overwrites instead of adding), and at the true start of file of
`c7lines1` the code yields 0 where the table yields 1 (the code's
start-of-file test fires on `preIndent = 1` rather than on the absence of a
preceding non-blank line). -/
theorem C7_penalty_divergence :
    (ShiftScore.add (ShiftScore.add ⟨0, 0⟩ (measureShift c7lines 2))
        (measureShift c7lines 1)).penalty = -4 ∧
    (specShiftScoreAdd c7lines 1 (specShiftScoreAdd c7lines 2 ⟨0, 0⟩)).penalty = -7 ∧
    (ShiftScore.add ⟨0, 0⟩ (measureShift c7lines1 0)).penalty = 0 ∧
    (specShiftScoreAdd c7lines1 0 ⟨0, 0⟩).penalty = 1 :=
  ⟨by decide, by decide, by decide, by decide⟩

/-- C5: a state of the GOOD_DIAGONAL scan (d = 256 ≥ goodDiagCostLimit, all
score conditions met) where the forward leg records and returns a split whose
terminating diagonal has length 9 < goodDiagMinLen, contradicting the claim
that a selected endpoint's terminating diagonal is at least 20 elements long
(the forward leg's guard is `diag < goodDiagMinLen`). -/
theorem C5_good_diagonal_forward_short :
    goodDiagTry (α := Nat) [] [] 0 1000 0 1000 0 0 256 (-2) 2 (-2) 2
        c5curF c5prevF c5curB c5prevB =
      some ⟨691, 700, 691, 700, true, false⟩ ∧
    (256 : Int) ≥ goodDiagCostLimit ∧
    (700 : Int) - 691 < goodDiagMinLen :=
  ⟨by decide, by decide, by decide⟩

/-- Helper: the match-consuming loop advances `s` and `run` in lockstep and
never decreases either. -/
theorem rvecsMats_props (rx ry : List Bool) (n m : Int) :
    ∀ (fl : Nat) (s t run d : Int),
      (rvecsMats rx ry n m fl s t run d).1 -
          (rvecsMats rx ry n m fl s t run d).2.2.1 = s - run ∧
      s ≤ (rvecsMats rx ry n m fl s t run d).1 ∧
      run ≤ (rvecsMats rx ry n m fl s t run d).2.2.1 := by
  intro fl
  induction fl with
  | zero => intro s t run d; simp [rvecsMats]
  | succ fl ih =>
    intro s t run d
    rw [rvecsMats]
    by_cases hcond : s < n ∧ t < m ∧ ¬rx.getD s.toNat false ∧ ¬ry.getD t.toNat false
    · rw [if_pos hcond]
      obtain ⟨h1, h2, h3⟩ := ih (s + 1) (t + 1) (run + 1) (d + 1)
      exact ⟨by omega, by omega, by omega⟩
    · rw [if_neg hcond]
      exact ⟨rfl, le_refl s, le_refl run⟩

/-- Helper: the delete-consuming loop only advances `s`. -/
theorem rvecsDels_ge (rx : List Bool) (n : Int) :
    ∀ (fl : Nat) (s d : Int), s ≤ (rvecsDels rx n fl s d).1 := by
  intro fl
  induction fl with
  | zero => intro s d; simp [rvecsDels]
  | succ fl ih =>
    intro s d
    rw [rvecsDels]
    by_cases hcond : s < n ∧ rx.getD s.toNat false
    · rw [if_pos hcond]
      have := ih (s + 1) (d + 1)
      omega
    · rw [if_neg hcond]

/-- Helper: appending a hunk that starts after the last hunk's end preserves
the separation property. -/
theorem hunkGaps_append (h : RHunk) :
    ∀ acc : List RHunk,
      hunkGaps acc = true →
      (∀ l, acc.getLast? = some l → l.s1 + 1 ≤ h.s0) →
      hunkGaps (acc ++ [h]) = true := by
  intro acc
  induction acc with
  | nil => intro _ _; rfl
  | cons a rest ih =>
    intro hg hl
    cases rest with
    | nil =>
      have ha := hl a rfl
      show (decide (h.s0 - a.s1 ≥ 1) && hunkGaps [h]) = true
      rw [Bool.and_eq_true, decide_eq_true_eq]
      exact ⟨by omega, rfl⟩
    | cons b rest' =>
      have hg2 : (decide (b.s0 - a.s1 ≥ 1) && hunkGaps (b :: rest')) = true := hg
      rw [Bool.and_eq_true, decide_eq_true_eq] at hg2
      have tail := ih hg2.2
        (fun l hll => hl l (by rw [List.getLast?_cons_cons]; exact hll))
      show (decide (b.s0 - a.s1 ≥ 1) && hunkGaps (b :: (rest' ++ [h]))) = true
      rw [Bool.and_eq_true, decide_eq_true_eq]
      exact ⟨hg2.1, tail⟩

/-- Helper: the last element of `acc ++ [h]` is `h`. -/
theorem getLast?_append_singleton (h : RHunk) (acc : List RHunk) :
    (acc ++ [h]).getLast? = some h := by
  simp [List.getLast?_append]

/-- The hunk-separation loop invariant: accumulated hunks are pairwise
separated; the run counter is non-negative and bounded by the cursor; in the
closed state the last emitted hunk ends `context` rows below the start of the
still-running match run (which exceeds `2·context`), and in the open state
the pending hunk starts after the last emitted hunk ends. -/
theorem rvecsHunksLoop_gaps (rx ry : List Bool) (context : Int) (hc : 0 ≤ context) :
    ∀ (fuel : Nat) (s t s0 t0 d run : Int) (acc hs : List RHunk),
      hunkGaps acc = true →
      0 ≤ run → run ≤ s →
      (s0 < 0 →
        ∀ l, acc.getLast? = some l →
          (l.s1 = s - run + context ∧ 2 * context + 1 ≤ run) ∨
            ¬(s < (rx.length : Int) - 1 ∨ t < (ry.length : Int) - 1)) →
      (0 ≤ s0 → ∀ l, acc.getLast? = some l → l.s1 + 1 ≤ s0) →
      rvecsHunksLoop rx ry context fuel s t s0 t0 d run acc = some hs →
      hunkGaps hs = true := by
  intro fuel
  induction fuel with
  | zero =>
    intro s t s0 t0 d run acc hs _ _ _ _ _ hloop
    exact absurd hloop (by simp [rvecsHunksLoop])
  | succ fuel ih =>
    intro s t s0 t0 d run acc hs hacc hrun0 hruns hclosed hopen hloop
    simp only [rvecsHunksLoop] at hloop
    by_cases hcond : s < (rx.length : Int) - 1 ∨ t < (ry.length : Int) - 1
    · rw [if_pos hcond] at hloop
      by_cases hedit : rx.getD s.toNat false = true ∨ ry.getD t.toNat false = true
      · rw [if_pos hedit] at hloop
        by_cases hs0 : s0 < 0
        · simp only [if_pos hs0] at hloop
          generalize hP : rvecsDels rx ((rx.length : Int) - 1) rx.length s
              (s - (0 ⊔ (s - context))) = P at hloop
          generalize hQ : rvecsInss ry ((ry.length : Int) - 1) ry.length t P.2 = Q at hloop
          have hPge : s ≤ P.1 := by
            rw [← hP]
            exact rvecsDels_ge rx ((rx.length : Int) - 1) rx.length s (s - (0 ⊔ (s - context)))
          by_cases hclose : (0 : Int) > 2 * context ∨
              (P.1 = (rx.length : Int) - 1 ∧ Q.1 = (ry.length : Int) - 1)
          · rw [if_pos hclose] at hloop
            refine ih P.1 Q.1 (-1) (-1) Q.2 0 _ hs ?_ le_rfl (by omega) ?_ ?_ hloop
            · refine hunkGaps_append _ acc hacc ?_
              intro l hl
              rcases hclosed hs0 l hl with ⟨hrel, hbig⟩ | hterm
              · show l.s1 + 1 ≤ 0 ⊔ (s - context)
                omega
              · exact absurd hcond hterm
            · intro _ l hl
              rw [getLast?_append_singleton] at hl
              cases hl
              right
              rcases hclose with hneg | hterm
              · omega
              · omega
            · intro h0
              exact absurd h0 (by omega)
          · rw [if_neg hclose] at hloop
            refine ih P.1 Q.1 (0 ⊔ (s - context)) (0 ⊔ (t - context)) Q.2 0 _ hs hacc
              le_rfl (by omega) ?_ ?_ hloop
            · intro habs
              exact absurd habs (by omega)
            · intro _ l hl
              rcases hclosed hs0 l hl with ⟨hrel, hbig⟩ | hterm
              · omega
              · exact absurd hcond hterm
        · simp only [if_neg hs0] at hloop
          generalize hP : rvecsDels rx ((rx.length : Int) - 1) rx.length s d = P at hloop
          generalize hQ : rvecsInss ry ((ry.length : Int) - 1) ry.length t P.2 = Q at hloop
          have hPge : s ≤ P.1 := by
            rw [← hP]
            exact rvecsDels_ge rx ((rx.length : Int) - 1) rx.length s d
          by_cases hclose : (0 : Int) > 2 * context ∨
              (P.1 = (rx.length : Int) - 1 ∧ Q.1 = (ry.length : Int) - 1)
          · rw [if_pos hclose] at hloop
            refine ih P.1 Q.1 (-1) (-1) Q.2 0 _ hs ?_ le_rfl (by omega) ?_ ?_ hloop
            · refine hunkGaps_append _ acc hacc ?_
              intro l hl
              have := hopen (by omega) l hl
              show l.s1 + 1 ≤ s0
              omega
            · intro _ l hl
              rw [getLast?_append_singleton] at hl
              cases hl
              right
              rcases hclose with hneg | hterm
              · omega
              · omega
            · intro h0
              exact absurd h0 (by omega)
          · rw [if_neg hclose] at hloop
            refine ih P.1 Q.1 s0 t0 Q.2 0 _ hs hacc le_rfl (by omega) ?_ ?_ hloop
            · intro habs
              exact absurd habs hs0
            · intro _ l hl
              exact hopen (by omega) l hl
      · rw [if_neg hedit] at hloop
        have hq := rvecsMats_props rx ry ((rx.length : Int) - 1) ((ry.length : Int) - 1)
          (rx.length + ry.length) s t run d
        generalize hQ : rvecsMats rx ry ((rx.length : Int) - 1) ((ry.length : Int) - 1)
            (rx.length + ry.length) s t run d = q at hloop hq
        obtain ⟨hq1, hq2, hq3⟩ := hq
        by_cases hclose : s0 ≥ 0 ∧ (q.2.2.1 > 2 * context ∨
            (q.1 = (rx.length : Int) - 1 ∧ q.2.1 = (ry.length : Int) - 1))
        · rw [if_pos hclose] at hloop
          refine ih q.1 q.2.1 (-1) (-1) q.2.2.2 q.2.2.1 _ hs ?_ (by omega) (by omega)
            ?_ ?_ hloop
          · refine hunkGaps_append _ acc hacc ?_
            intro l hl
            have := hopen hclose.1 l hl
            show l.s1 + 1 ≤ s0
            omega
          · intro _ l hl
            rw [getLast?_append_singleton] at hl
            cases hl
            rcases hclose.2 with hbig | hterm
            · left
              constructor
              · show q.1 + 0 ⊓ (-q.2.2.1 + context) = q.1 - q.2.2.1 + context
                omega
              · omega
            · right
              omega
          · intro h0 l hl
            exact absurd h0 (by omega)
        · rw [if_neg hclose] at hloop
          refine ih q.1 q.2.1 s0 t0 q.2.2.2 q.2.2.1 _ hs hacc (by omega) (by omega)
            ?_ ?_ hloop
          · intro hs0 l hl
            rcases hclosed hs0 l hl with ⟨hrel, hbig⟩ | hterm
            · left
              exact ⟨by omega, by omega⟩
            · exact absurd hcond hterm
          · exact fun h0 l hl => hopen h0 l hl
    · rw [if_neg hcond] at hloop
      cases hloop
      exact hacc

/-- C6 (amended): for all result vectors and every context ≥ 0, any two
consecutive hunks `h_i, h_{i+1}` produced by the hunk grouper satisfy
`h_{i+1}.S0 − h_i.S1 ≥ 1` — at least one separating row.  The separation is
not in general strictly greater than the context: `C6_counterexample`
attains exactly 1 with context 1. -/
theorem C6_hunk_separation (rx ry : List Bool) (context : Int) (hc : 0 ≤ context)
    (hs : List RHunk) (h : rvecsHunks rx ry context = some hs) :
    hunkGaps hs = true := by
  refine rvecsHunksLoop_gaps rx ry context hc _ 0 0 (-1) (-1) 0 0 [] hs rfl
    le_rfl le_rfl ?_ ?_ h
  · intro _ l hl
    cases hl
  · intro h0
    exact absurd h0 (by omega)

/-- Closed instance of `C6_hunk_separation` on the counterexample vectors. -/
theorem C6_witness :
    (0 : Int) ≤ 1 ∧
    rvecsHunks [true, false, false, false, true, false] [false, false, false, false] 1 =
      some [⟨0, 2, 0, 1, 2⟩, ⟨3, 5, 2, 3, 2⟩] ∧
    hunkGaps [⟨0, 2, 0, 1, 2⟩, ⟨3, 5, 2, 3, 2⟩] = true :=
  ⟨by decide, by rfl,
    C6_hunk_separation [true, false, false, false, true, false]
      [false, false, false, false] 1 (by decide) _ (by rfl)⟩


/-- Helper: once an element's x-count is saturated at 2, a further
occurrence only appends its ID. -/
theorem ppStep1Go_saturated (idx : List (α × Nat)) (counts x0 : List Nat) (e : α) (i : Nat)
    (hl : lookupId idx e = some i) (hc : counts.getD i 0 = 2) :
    ppStep1Go (idx, counts, x0) e = (idx, counts, x0 ++ [i]) := by
  simp only [ppStep1Go]
  rw [hl]
  simp only [Option.isSome_some, if_true, Option.getD_some]
  rw [hc]
  simp

/-- Helper: a run of a saturated element leaves index and counts unchanged. -/
theorem foldl_ppStep1Go_replicate (e : α) (i : Nat) :
    ∀ (k : Nat) (idx : List (α × Nat)) (counts x0 : List Nat),
      lookupId idx e = some i → counts.getD i 0 = 2 →
      List.foldl ppStep1Go (idx, counts, x0) (List.replicate k e) =
        (idx, counts, x0 ++ List.replicate k i) := by
  intro k
  induction k with
  | zero => intro idx counts x0 _ _; simp
  | succ k ih =>
    intro idx counts x0 hl hc
    rw [List.replicate_succ, List.foldl_cons, ppStep1Go_saturated idx counts x0 e i hl hc,
      ih idx counts (x0 ++ [i]) hl hc]
    simp [List.replicate_succ]

/-- Helper: the y-walk over a run of an element whose count is already ≥ 8
only appends IDs and y-indices. -/
theorem ppStep2_saturated (idx : List (α × Nat)) (e : α) (i : Nat)
    (hl : lookupId idx e = some i) :
    ∀ (k t : Nat) (counts y0 yidx : List Nat) (ry : List Bool),
      ¬(counts.getD i 0 < 8) →
      ∃ yidx', ppStep2 idx (List.replicate k e) t (counts, y0, yidx, ry) =
        (counts, y0 ++ List.replicate k i, yidx', ry) := by
  intro k
  induction k with
  | zero => intro t counts y0 yidx ry _; exact ⟨yidx, by simp [ppStep2]⟩
  | succ k ih =>
    intro t counts y0 yidx ry hc
    rw [List.replicate_succ]
    show ∃ yidx', ppStep2 idx (e :: List.replicate k e) t (counts, y0, yidx, ry) = _
    simp only [ppStep2]
    rw [hl]
    simp only []
    rw [if_neg hc]
    obtain ⟨yidx', hy⟩ := ih (t + 1) counts (y0 ++ [i]) (yidx ++ [t]) ry hc
    refine ⟨yidx', ?_⟩
    rw [hy]
    simp [List.replicate_succ]

theorem ppStep3_keep (counts : List Nat) (e : Nat) (hc : counts.getD e 0 > 4)
    (hne : counts.getD e 0 ≠ 1 + 4) :
    ∀ (k j : Nat) (x0 xidx : List Nat) (na : Nat) (rx : List Bool),
      ∃ xidx', ppStep3 counts (List.replicate k e) j (x0, xidx, na, rx) =
        (x0 ++ List.replicate k e, xidx', na, rx) := by
  intro k
  induction k with
  | zero => intro j x0 xidx na rx; exact ⟨xidx, by simp [ppStep3]⟩
  | succ k ih =>
    intro j x0 xidx na rx
    rw [List.replicate_succ]
    show ∃ xidx', ppStep3 counts (e :: List.replicate k e) j (x0, xidx, na, rx) = _
    simp only [ppStep3]
    rw [if_pos hc, if_neg hne]
    obtain ⟨xidx', hx⟩ := ih (j + 1) (x0 ++ [e]) (xidx ++ [j]) na rx
    refine ⟨xidx', ?_⟩
    rw [hx]
    simp [List.replicate_succ]



/-- Helper: one y-walk step on a present element below the count cap. -/
theorem ppStep2_cons_found {α : Type} [DecidableEq α] (idx : List (α × Nat)) (e : α)
    (i : Nat) (hl : lookupId idx e = some i) (rest : List α) (t : Nat)
    (counts y0 yidx : List Nat) (ry : List Bool) (c : Nat)
    (hc : counts.getD i 0 = c) (hlt : c < 8) :
    ppStep2 idx (e :: rest) t (counts, y0, yidx, ry) =
      ppStep2 idx rest (t + 1) (counts.set i (c + 4), y0 ++ [i], yidx ++ [t], ry) := by
  simp only [ppStep2, hl]
  rw [hc, if_pos hlt]

/-- Helper: one x-filter step on a kept element (`count > 4`). -/
theorem ppStep3_cons_keep (counts : List Nat) (e : Nat) (rest : List Nat) (j : Nat)
    (x0 xidx : List Nat) (na : Nat) (rx : List Bool) (hc : counts.getD e 0 > 4) :
    ppStep3 counts (e :: rest) j (x0, xidx, na, rx) =
      ppStep3 counts rest (j + 1)
        (x0 ++ [e], xidx ++ [j], if counts.getD e 0 = 1 + 4 then na + 1 else na, rx) := by
  simp only [ppStep3]
  rw [if_pos hc]

/-- Helper: the x-filter keeps a whole run of a kept non-anchor element. -/
theorem ppStep3_keep_cont (counts : List Nat) (e : Nat) (hc : counts.getD e 0 > 4)
    (hne : counts.getD e 0 ≠ 1 + 4) :
    ∀ (k : Nat) (rest : List Nat) (j : Nat) (x0 xidx : List Nat) (na : Nat) (rx : List Bool),
      ∃ xidx'', ppStep3 counts (List.replicate k e ++ rest) j (x0, xidx, na, rx) =
        ppStep3 counts rest (j + k) (x0 ++ List.replicate k e, xidx'', na, rx) := by
  intro k
  induction k with
  | zero => intro rest j x0 xidx na rx; exact ⟨xidx, by simp⟩
  | succ k ih =>
    intro rest j x0 xidx na rx
    rw [List.replicate_succ, List.cons_append,
      ppStep3_cons_keep counts e _ j x0 xidx na rx hc, if_neg hne]
    obtain ⟨xidx'', hx⟩ := ih rest (j + 1) (x0 ++ [e]) (xidx ++ [j]) na rx
    refine ⟨xidx'', ?_⟩
    rw [hx, show j + 1 + k = j + (k + 1) from by omega]
    simp [List.replicate_succ]

/-- The x-walk of `preprocess` on `c4x`. -/
theorem ppStep1_c4x :
    ppStep1 c4x =
      ([((0 : Nat), (0 : Nat)), (7, 1)],
        (((List.replicate 2500 (0 : Nat)).set 0 1).set 0 2).set 1 1,
        List.replicate 2499 (0 : Nat) ++ [1]) := by
  have hlen : c4x.length = 2500 := by
    show (List.replicate 2499 (0 : Nat) ++ [7]).length = 2500
    simp only [List.length_append, List.length_replicate, List.length_cons, List.length_nil]
  have hsplit : c4x = List.replicate 2 (0 : Nat) ++ (List.replicate 2497 0 ++ [7]) := rfl
  unfold ppStep1
  rw [hlen, hsplit, List.foldl_append, List.foldl_append]
  have h2 : List.foldl ppStep1Go ([], List.replicate 2500 (0 : Nat), [])
      (List.replicate 2 (0 : Nat)) =
      ([((0 : Nat), (0 : Nat))], ((List.replicate 2500 (0 : Nat)).set 0 1).set 0 2,
        [0, 0]) := rfl
  rw [h2, foldl_ppStep1Go_replicate (0 : Nat) 0 2497 [((0 : Nat), (0 : Nat))]
    (((List.replicate 2500 (0 : Nat)).set 0 1).set 0 2) [0, 0] (by rfl) (by rfl)]
  exact rfl

/-- The y-walk of `preprocess` on `c4y`. -/
theorem ppStep2_c4 (ry : List Bool) :
    ∃ yidx', ppStep2 [((0 : Nat), (0 : Nat)), (7, 1)] c4y 0
        ((((List.replicate 2500 (0 : Nat)).set 0 1).set 0 2).set 1 1, [], [], ry) =
      (((((((List.replicate 2500 (0 : Nat)).set 0 1).set 0 2).set 1 1).set 1 5).set 0 6).set 0 10,
        1 :: List.replicate 2499 (0 : Nat), yidx', ry) := by
  have hc4y : c4y = (7 : Nat) :: 0 :: 0 :: List.replicate 2497 0 := rfl
  rw [hc4y]
  rw [ppStep2_cons_found [((0 : Nat), (0 : Nat)), (7, 1)] 7 1 (by rfl) _ 0
    ((((List.replicate 2500 (0 : Nat)).set 0 1).set 0 2).set 1 1) [] [] ry 1 (by rfl)
    (by norm_num)]
  rw [ppStep2_cons_found [((0 : Nat), (0 : Nat)), (7, 1)] 0 0 (by rfl) _ 1
    (((((List.replicate 2500 (0 : Nat)).set 0 1).set 0 2).set 1 1).set 1 5)
    ([] ++ [1]) ([] ++ [0]) ry 2 (by rfl) (by norm_num)]
  rw [ppStep2_cons_found [((0 : Nat), (0 : Nat)), (7, 1)] 0 0 (by rfl) _ 2
    ((((((List.replicate 2500 (0 : Nat)).set 0 1).set 0 2).set 1 1).set 1 5).set 0 6)
    ([] ++ [1] ++ [0]) ([] ++ [0] ++ [1]) ry 6 (by rfl) (by norm_num)]
  obtain ⟨yidx', hy⟩ := ppStep2_saturated
    [((0 : Nat), (0 : Nat)), (7, 1)] (0 : Nat) 0 (by rfl) 2497 3
    (((((((List.replicate 2500 (0 : Nat)).set 0 1).set 0 2).set 1 1).set 1 5).set 0 6).set 0 10)
    ([] ++ [1] ++ [0] ++ [0]) ([] ++ [0] ++ [1] ++ [2]) ry (by norm_num)
  exact ⟨yidx', hy⟩

/-- The x-filter of `preprocess` on the reduced `c4x`: everything is kept and
exactly one anchor is counted. -/
theorem ppStep3_c4 (rx : List Bool) :
    ∃ xidx', ppStep3
        (((((((List.replicate 2500 (0 : Nat)).set 0 1).set 0 2).set 1 1).set 1 5).set 0 6).set 0 10)
        (List.replicate 2499 (0 : Nat) ++ [1]) 0 ([], [], 0, rx) =
      (List.replicate 2499 (0 : Nat) ++ [1], xidx', 1, rx) := by
  obtain ⟨xidx'', hx⟩ := ppStep3_keep_cont
    (((((((List.replicate 2500 (0 : Nat)).set 0 1).set 0 2).set 1 1).set 1 5).set 0 6).set 0 10)
    0 (by decide) (by decide) 2499 [1] 0 [] [] 0 rx
  refine ⟨xidx'' ++ [0 + 2499], ?_⟩
  rw [hx, ppStep3_cons_keep
    (((((((List.replicate 2500 (0 : Nat)).set 0 1).set 0 2).set 1 1).set 1 5).set 0 6).set 0 10)
    1 [] (0 + 2499) ([] ++ List.replicate 2499 (0 : Nat)) xidx'' 0 rx (by decide)]
  exact rfl

/-- `c4x` has 2500 elements. -/
theorem c4x_length : c4x.length = 2500 := by
  show (List.replicate 2499 (0 : Nat) ++ [7]).length = 2500
  simp only [List.length_append, List.length_replicate, List.length_cons, List.length_nil]

/-- `c4y` has 2500 elements. -/
theorem c4y_length : c4y.length = 2500 := by
  show ((7 : Nat) :: List.replicate 2499 0).length = 2500
  simp only [List.length_cons, List.length_replicate]

/-- The preprocessed state of the boundary input: `x0`/`y0` keep all 2500
elements per side and exactly one anchor is found. -/
theorem pp4_eq : ∃ xidx' yidx' cs, pp4 =
    { x0 := List.replicate 2499 (0 : Nat) ++ [1], y0 := 1 :: List.replicate 2499 0,
      xidx := xidx', yidx := yidx', counts := cs, nanchors := 1,
      rx := List.replicate 2501 false, ry := List.replicate 2501 false } := by
  obtain ⟨yidx', hy⟩ := ppStep2_c4 (List.replicate 2501 false)
  obtain ⟨xidx', hx3⟩ := ppStep3_c4 (List.replicate 2501 false)
  have hxwin : ((c4x.drop 0).take (2500 - 0)) = c4x := by
    rw [List.drop_zero, show (2500 - 0 : Nat) = c4x.length from by rw [c4x_length],
      List.take_length]
  have hywin : ((c4y.drop 0).take (2500 - 0)) = c4y := by
    rw [List.drop_zero, show (2500 - 0 : Nat) = c4y.length from by rw [c4y_length],
      List.take_length]
  refine ⟨xidx', yidx',
    ((((((List.replicate 2500 (0 : Nat)).set 0 1).set 0 2).set 1 1).set 1 5).set 0 6).set 0 10,
    ?_⟩
  show preprocess (List.replicate 2501 false) (List.replicate 2501 false)
      0 2500 0 2500 c4x c4y = _
  simp only [preprocess]
  rw [hxwin, hywin, ppStep1_c4x]
  dsimp only
  rw [hy]
  dsimp only
  rw [hx3]

/-- The reduced boundary inputs have no common prefix or suffix, so the
change window is everything. -/
theorem findChangeBounds_c4shape (a : Nat) (ha : a ≠ 0) :
    findChangeBounds (List.replicate 2499 (0 : Nat) ++ [a]) (a :: List.replicate 2499 0) =
      (0, 2500, 0, 2500) := by
  have hp : commonPrefixLen (List.replicate 2499 (0 : Nat) ++ [a])
      (a :: List.replicate 2499 0) = 0 := by
    show commonPrefixLen ((0 : Nat) :: (List.replicate 2498 0 ++ [a]))
      (a :: List.replicate 2499 0) = 0
    rw [commonPrefixLen, if_neg (fun h => ha h.symm)]
  have hq : commonPrefixLen (List.replicate 2499 (0 : Nat) ++ [a]).reverse
      (a :: List.replicate 2499 0).reverse = 0 := by
    rw [List.reverse_cons, List.reverse_replicate]
    rw [List.reverse_append, List.reverse_replicate]
    show commonPrefixLen ((a : Nat) :: List.replicate 2499 0)
      ((0 : Nat) :: (List.replicate 2498 0 ++ [a])) = 0
    rw [commonPrefixLen, if_neg ha]
  simp only [findChangeBounds]
  rw [hp, List.drop_zero, List.drop_zero, hq]
  rw [show (List.replicate 2499 (0 : Nat) ++ [a]).length = 2500 from by
    simp only [List.length_append, List.length_replicate, List.length_cons, List.length_nil]]
  rw [show ((a : Nat) :: List.replicate 2499 0).length = 2500 from by
    simp only [List.length_cons, List.length_replicate]]

/-- C4 (amended): in Default mode the driver partitions via the anchor LCS
exactly when `anchoringDispatch` holds — `n_anchors > 0` and the change
window of the reduced slices is *strictly greater* than 5000 — or the
internal ForceAnchoring flag is set; otherwise it performs the single Myers
invocation with `optimal = false` (`diffDefaultPlain`). -/
theorem C4_default_dispatch (pp : PPRes) (force : Bool) :
    diffDefault pp force =
      if anchoringDispatch pp = true ∨ force = true then diffDefaultAnchored pp
      else diffDefaultPlain pp := by
  simp only [diffDefault, diffDefaultAnchored, diffDefaultPlain, anchoringDispatch]
  by_cases hcond : (pp.nanchors > 0 ∧
      (((findChangeBounds pp.x0 pp.y0).2.1 : Int) - ((findChangeBounds pp.x0 pp.y0).1 : Int) +
        (((findChangeBounds pp.x0 pp.y0).2.2.2 : Int) - ((findChangeBounds pp.x0 pp.y0).2.2.1 : Int)) >
        anchoringHeuristicMinInputLen)) ∨ force = true
  · rw [if_pos hcond, if_pos (by simpa using hcond)]
  · rw [if_neg hcond, if_neg (by simpa using hcond)]

/-- On the boundary state `pp4` the spec's dispatch condition (≥ 5000) holds. -/
theorem spec_dispatch_pp4 : specAnchoringDispatch pp4 = true := by
  obtain ⟨xi, yi, cs, hpp⟩ := pp4_eq
  simp only [specAnchoringDispatch, decide_eq_true_eq]
  rw [hpp]
  dsimp only
  have hl1 : (List.replicate 2499 (0 : Nat) ++ [1]).length = 2500 := by
    simp only [List.length_append, List.length_replicate, List.length_cons, List.length_nil]
  have hl2 : ((1 : Nat) :: List.replicate 2499 0).length = 2500 := by
    simp only [List.length_cons, List.length_replicate]
  rw [hl1, hl2]
  exact ⟨by norm_num, by norm_num [anchoringHeuristicMinInputLen]⟩

/-- On the boundary state `pp4` the code's dispatch condition (> 5000) fails. -/
theorem code_dispatch_pp4 : anchoringDispatch pp4 = false := by
  obtain ⟨xi, yi, cs, hpp⟩ := pp4_eq
  simp only [anchoringDispatch]
  rw [decide_eq_false_iff_not]
  rw [hpp]
  dsimp only
  rw [findChangeBounds_c4shape 1 (by norm_num)]
  dsimp only
  intro hcontra
  have h2 := hcontra.2
  norm_num [anchoringHeuristicMinInputLen] at h2

/-- The driver reaches `diffDefault pp4 false` on the boundary input. -/
theorem Diff_c4 : Diff c4x c4y Config.defaultCfg = diffDefault pp4 false := by
  simp only [Diff]
  rw [show findChangeBounds c4x c4y = (0, 2500, 0, 2500) from
    findChangeBounds_c4shape 7 (by norm_num)]
  dsimp only
  rw [if_neg (by norm_num), if_neg (by norm_num), if_neg (by norm_num)]
  rw [c4x_length, c4y_length]
  rfl

/-- C4 counterexample: on the 2500+2500-element boundary input the driver
reaches `pp4` with one anchor and `|x0| + |y0| = 5000`; the claim's condition
(≥ 5000) holds, yet the driver's strict condition fails and `diffDefault`
takes the single-Myers branch instead of partitioning. -/
theorem C4_counterexample :
    Diff c4x c4y Config.defaultCfg = diffDefault pp4 false ∧
    specAnchoringDispatch pp4 = true ∧
    anchoringDispatch pp4 = false ∧
    diffDefault pp4 false = diffDefaultPlain pp4 := by
  refine ⟨Diff_c4, spec_dispatch_pp4, code_dispatch_pp4, ?_⟩
  rw [C4_default_dispatch pp4 false, if_neg]
  rw [code_dispatch_pp4]
  simp

end ZnkrDiff
